import Mathlib

/-!
# zapctx: a context carrying a zap logger

A shallow embedding of `zapctx.go`.  The package composes two libraries it does
not define: the standard `context` package and `go.uber.org/zap`.  The logger
library is taken as a parameter (`Zap`) and, where a statement depends on what
the library does, as its documentation describes it (`zap.lib`); the context
library is represented by the tree of nodes its constructors build, with the
documented lookup, cancellation and panic rules.  Contexts are non-nil values
throughout: `Logger`, `WithFields`, `WithOptions` and the library's constructors
all dereference their parent.  The section on the store renders the deriving
functions a second time, with structs and loggers held by address.
-/

namespace zapctx

/-! ## The logger library, as a parameter -/

/-- The seven levelled methods of the interface `ZapLogger`. -/
inductive ZapLogger where
  | DPanic
  | Debug
  | Error
  | Fatal
  | Info
  | Panic
  | Warn
  deriving DecidableEq, Repr

/-- What a caller can observe of one logging call: the records handed to the
sink and whether the call raised (panicked or terminated the process). -/
structure Outcome (Record : Type) where
  written : List Record
  raised : Bool

/-- A logging call that writes nothing and does not raise. -/
def Outcome.noop {Record : Type} : Outcome Record := ⟨[], false⟩

/-- The part of `go.uber.org/zap` the package uses.  `Logger` is the type of
`*zap.Logger` values, `NewNop` is `zap.NewNop()`, `With` and `WithOptions` are
the two logger-deriving methods, `Log m` is the levelled method `m` and `IsNil`
tells the nil pointer from a logger.  Nothing is assumed about how these
behave. -/
structure Zap where
  Logger : Type
  Field : Type
  Opt : Type
  Record : Type
  IsNil : Logger → Bool
  NewNop : Logger
  With : Logger → List Field → Logger
  WithOptions : Logger → List Opt → Logger
  Log : ZapLogger → Logger → String → List Field → Outcome Record

/-! ## The context library -/

/-- Keys of a value lookup: the package's private `loggerKey{}`, the comparable
keys callers use, the nil key, and keys whose dynamic type is not comparable
(a slice, a map, a function). -/
inductive Key where
  | loggerKey
  | user (n : Nat)
  | nil
  | uncomparable (n : Nat)
  deriving DecidableEq, Repr

/-- The keys `context.WithValue` accepts: non-nil and comparable. -/
def Key.usable : Key → Bool
  | Key.loggerKey => true
  | Key.user _ => true
  | Key.nil => false
  | Key.uncomparable _ => false

mutual
/-- An `interface{}` value as returned by `Value`: nil, a caller's value, or a
context (in particular a `*loggerCtx`). -/
inductive Val (Z : Zap) : Type where
  | nil
  | user (n : Nat)
  | ctx (c : Ctx Z)
/-- A non-nil `context.Context` value.  `emptyCtx` is `context.Background()`
(`todo = false`) or `context.TODO()`; `cancelCtx`, `timerCtx` and `valueCtx` are
the nodes built by `context.WithCancel`, `context.WithDeadline` and
`context.WithValue` (`id` names the allocation); `loggerCtx` is a pointer to the
package's struct with its two embedded fields; `foreign` is any other
implementation, described by whether its method set satisfies `LoggerContext`,
its `Deadline` and its `Value` method. -/
inductive Ctx (Z : Zap) : Type where
  | emptyCtx (todo : Bool)
  | cancelCtx (Context : Ctx Z) (id : Nat)
  | timerCtx (Context : Ctx Z) (id : Nat) (deadline : Int)
  | valueCtx (Context : Ctx Z) (key : Key) (val : Val Z)
  | loggerCtx (Context : Ctx Z) (Logger : Z.Logger)
  | foreign (bound : Bool) (deadline : Option Int) (value : Key → Val Z)
end

variable {Z : Zap}

/-- The struct `loggerCtx`: an embedded `context.Context` and an embedded
`*zap.Logger`. -/
structure loggerCtx (Z : Zap) where
  Context : Ctx Z
  Logger : Z.Logger

/-- A `*loggerCtx` used as a `context.Context` (or `LoggerContext`) value. -/
def loggerCtx.toCtx (lc : loggerCtx Z) : Ctx Z :=
  Ctx.loggerCtx lc.Context lc.Logger

/-- The type assertion `v.(*loggerCtx)`. -/
def Val.asLoggerCtx : Val Z → Option (loggerCtx Z)
  | Val.ctx (Ctx.loggerCtx p l) => some ⟨p, l⟩
  | _ => none

/-- The type assertion `c.(*loggerCtx)` on a context value. -/
def Ctx.asLoggerCtx : Ctx Z → Option (zapctx.loggerCtx Z)
  | Ctx.loggerCtx p l => some ⟨p, l⟩
  | _ => none

/-- The type assertion `parent.(LoggerContext)`: the dynamic type has the
context methods, the seven logging methods, `With` and `WithOptions`.  Of the
context library's own types none has them; `*loggerCtx` has them all. -/
def Ctx.isLoggerContext : Ctx Z → Bool
  | Ctx.loggerCtx _ _ => true
  | Ctx.foreign bound _ _ => bound
  | _ => false

/-- The method `Value`, dispatched on the dynamic type.  The `loggerCtx` case is
`func (lc *loggerCtx) Value(key interface{}) interface{}`; the others are the
context library's lookup: a value node answers for its own key and otherwise
asks its parent, cancellation nodes ask their parent, a root answers nil. -/
def Ctx.Value : Ctx Z → Key → Val Z
  | Ctx.emptyCtx _, _ => Val.nil
  | Ctx.cancelCtx p _, key => Ctx.Value p key
  | Ctx.timerCtx p _ _, key => Ctx.Value p key
  | Ctx.valueCtx p k v, key => if k = key then v else Ctx.Value p key
  | Ctx.loggerCtx p l, key =>
      if key = Key.loggerKey then Val.ctx (Ctx.loggerCtx p l) else Ctx.Value p key
  | Ctx.foreign _ _ value, key => value key

/-- The method `Deadline`: a timer node reports its own deadline, a root none,
and every other node (the package's `loggerCtx` included, by embedding) its
parent's. -/
def Ctx.Deadline : Ctx Z → Option Int
  | Ctx.emptyCtx _ => none
  | Ctx.cancelCtx p _ => Ctx.Deadline p
  | Ctx.timerCtx _ _ d => some d
  | Ctx.valueCtx p _ _ => Ctx.Deadline p
  | Ctx.loggerCtx p _ => Ctx.Deadline p
  | Ctx.foreign _ d _ => d

/-- A `context.CancelFunc`: it cancels the node allocated as `target`. -/
structure CancelFunc where
  target : Nat
  deriving DecidableEq, Repr

namespace context

/-- `context.Background()`. -/
def Background : Ctx Z := Ctx.emptyCtx false

/-- `context.TODO()`. -/
def TODO : Ctx Z := Ctx.emptyCtx true

/-- `context.WithCancel(parent)`; `id` is the identity of the new node. -/
def WithCancel (id : Nat) (parent : Ctx Z) : Ctx Z × CancelFunc :=
  (Ctx.cancelCtx parent id, ⟨id⟩)

/-- `context.WithDeadline(parent, d)`: when the parent already has an earlier
deadline the result is a plain cancellation node, otherwise a timer node. -/
def WithDeadline (id : Nat) (parent : Ctx Z) (d : Int) : Ctx Z × CancelFunc :=
  match parent.Deadline with
  | some cur => if cur < d then WithCancel id parent else (Ctx.timerCtx parent id d, ⟨id⟩)
  | none => (Ctx.timerCtx parent id d, ⟨id⟩)

/-- `context.WithTimeout(parent, timeout)`, which is
`WithDeadline(parent, time.Now().Add(timeout))`; `now` is the clock reading. -/
def WithTimeout (id : Nat) (now : Int) (parent : Ctx Z) (timeout : Int) :
    Ctx Z × CancelFunc :=
  WithDeadline id parent (now + timeout)

/-- `context.WithValue(parent, key, val)`, which panics (`none`) on a nil key
and on a key that is not comparable. -/
def WithValue (parent : Ctx Z) (key : Key) (val : Val Z) : Option (Ctx Z) :=
  if key.usable then some (Ctx.valueCtx parent key val) else none

end context

/-! ## The package -/

/-- `var baseLogger *zap.Logger = zap.NewNop()`. -/
def baseLogger (Z : Zap) : Z.Logger := Z.NewNop

/-- `func (lc *loggerCtx) Value(key interface{}) interface{}`. -/
def loggerCtx.Value (lc : loggerCtx Z) (key : Key) : Val Z :=
  if key = Key.loggerKey then Val.ctx lc.toCtx else lc.Context.Value key

/-- `func (lc *loggerCtx) With(fields ...zap.Field) LoggerContext`. -/
def loggerCtx.With (lc : loggerCtx Z) (fields : List Z.Field) : Ctx Z :=
  Ctx.loggerCtx lc.toCtx (Z.With lc.Logger fields)

/-- `func (lc *loggerCtx) WithOptions(options ...zap.Option) LoggerContext`. -/
def loggerCtx.WithOptions (lc : loggerCtx Z) (options : List Z.Opt) : Ctx Z :=
  Ctx.loggerCtx lc.toCtx (Z.WithOptions lc.Logger options)

/-- The logging methods of `*loggerCtx`.  The struct declares none: each is the
method of the embedded `*zap.Logger`, promoted. -/
def loggerCtx.Log (m : ZapLogger) (lc : loggerCtx Z) (msg : String)
    (fields : List Z.Field) : Outcome Z.Record :=
  Z.Log m lc.Logger msg fields

/-- `func Logger(parent context.Context) LoggerContext`. -/
def Logger (parent : Ctx Z) : Ctx Z :=
  if parent.isLoggerContext then parent
  else
    match (parent.Value Key.loggerKey).asLoggerCtx with
    | some lc => Ctx.loggerCtx parent lc.Logger
    | none => Ctx.loggerCtx parent (baseLogger Z)

/-- `func WithLogger(parent context.Context, logger *zap.Logger) LoggerContext`. -/
def WithLogger (parent : Ctx Z) (logger : Z.Logger) : Ctx Z :=
  Ctx.loggerCtx parent logger

/-- `func WithFields(parent context.Context, fields ...zap.Field) LoggerContext`. -/
def WithFields (parent : Ctx Z) (fields : List Z.Field) : Ctx Z :=
  match (parent.Value Key.loggerKey).asLoggerCtx with
  | some lc => Ctx.loggerCtx parent (Z.With lc.Logger fields)
  | none => Ctx.loggerCtx parent (Z.With (baseLogger Z) fields)

/-- `func WithOptions(parent context.Context, options ...zap.Option) LoggerContext`. -/
def WithOptions (parent : Ctx Z) (options : List Z.Opt) : Ctx Z :=
  match (parent.Value Key.loggerKey).asLoggerCtx with
  | some lc => Ctx.loggerCtx parent (Z.WithOptions lc.Logger options)
  | none => Ctx.loggerCtx parent (Z.WithOptions (baseLogger Z) options)

/-- `func Background() LoggerContext`. -/
def Background : Ctx Z := Logger context.Background

/-- `func TODO() LoggerContext`. -/
def TODO : Ctx Z := Logger context.TODO

/-- `func WithCancel(parent context.Context) (LoggerContext, CancelFunc)`. -/
def WithCancel (id : Nat) (parent : Ctx Z) : Ctx Z × CancelFunc :=
  let r := context.WithCancel id parent
  (Logger r.1, r.2)

/-- `func WithDeadline(parent context.Context, d time.Time) (LoggerContext, CancelFunc)`. -/
def WithDeadline (id : Nat) (parent : Ctx Z) (d : Int) : Ctx Z × CancelFunc :=
  let r := context.WithDeadline id parent d
  (Logger r.1, r.2)

/-- `func WithTimeout(parent context.Context, timeout time.Duration) (LoggerContext, CancelFunc)`. -/
def WithTimeout (id : Nat) (now : Int) (parent : Ctx Z) (timeout : Int) :
    Ctx Z × CancelFunc :=
  let r := context.WithTimeout id now parent timeout
  (Logger r.1, r.2)

/-- `func WithValue(parent context.Context, key, val interface{}) LoggerContext`. -/
def WithValue (parent : Ctx Z) (key : Key) (val : Val Z) : Option (Ctx Z) :=
  match context.WithValue parent key val with
  | some ctx => some (Logger ctx)
  | none => none

/-! ## Vocabulary of the specification -/

/-- `Derived a p`: `p` is `a` or is built from `a` by a chain of the context
library's derivations (cancel, deadline or timeout, value under a caller's key). -/
inductive Derived (a : Ctx Z) : Ctx Z → Prop where
  | refl : Derived a a
  | cancel {p : Ctx Z} (id : Nat) : Derived a p → Derived a (Ctx.cancelCtx p id)
  | timer {p : Ctx Z} (id : Nat) (d : Int) : Derived a p → Derived a (Ctx.timerCtx p id d)
  | value {p : Ctx Z} (n : Nat) (v : Val Z) :
      Derived a p → Derived a (Ctx.valueCtx p (Key.user n) v)

/-- A concrete logger library for evaluating the definitions.  A logger is a
switch and the fields merged so far; an option sets the switch; a logging call
on a switched-on logger writes one record holding the merged fields followed by
the call's own, and a call on a switched-off logger does nothing.  The no-op
logger is switched off with no fields. -/
@[reducible]
def Z0 : Zap where
  Logger := Bool × List Nat
  Field := Nat
  Opt := Bool
  Record := ZapLogger × String × List Nat
  IsNil := fun _ => false
  NewNop := (false, [])
  With := fun l fs => (l.1, l.2 ++ fs)
  WithOptions := fun l os => (os.getLastD l.1, l.2)
  Log := fun m l msg fs => if l.1 then ⟨[(m, msg, l.2 ++ fs)], false⟩ else Outcome.noop

/-! ## Cancellation -/

/-- The two errors of the context library. -/
inductive context.Error where
  | Canceled
  | DeadlineExceeded
  deriving DecidableEq, Repr

/-- `var Canceled = context.Canceled`. -/
def Canceled : context.Error := context.Error.Canceled

/-- `var DeadlineExceeded = context.DeadlineExceeded`. -/
def DeadlineExceeded : context.Error := context.Error.DeadlineExceeded

/-- The mutable state behind the contexts: the clock, the error recorded at each
cancellation node by a call of its cancel function (by allocation), and what
the `Err` method of each context of another implementation currently returns. -/
structure World (Z : Zap) where
  now : Int
  err : Nat → Option context.Error
  outside : Ctx Z → Option context.Error

/-- The method `Err`: nil while the context is not cancelled.  A cancellation
node is cancelled by its own cancel function or with its parent, a timer node
also when its deadline has passed; a value node and the package's `loggerCtx`
(by embedding) report what their parent reports.  The error is read off the
current world: for a node whose parent is cancelled and whose deadline has also
passed, the parent's error is given, whichever of the two came first. -/
def Ctx.Err (w : World Z) : Ctx Z → Option context.Error
  | Ctx.emptyCtx _ => none
  | Ctx.cancelCtx p id =>
      match w.err id with
      | some e => some e
      | none => Ctx.Err w p
  | Ctx.timerCtx p id d =>
      match w.err id with
      | some e => some e
      | none =>
        match Ctx.Err w p with
        | some e => some e
        | none => if d ≤ w.now then some context.Error.DeadlineExceeded else none
  | Ctx.valueCtx p _ _ => Ctx.Err w p
  | Ctx.loggerCtx p _ => Ctx.Err w p
  | Ctx.foreign b d v => w.outside (Ctx.foreign b d v)

/-- The cancellation node allocated as `target` in the chain of a context. -/
def Ctx.node? (target : Nat) : Ctx Z → Option (Ctx Z)
  | Ctx.emptyCtx _ => none
  | Ctx.cancelCtx p id =>
      if id = target then some (Ctx.cancelCtx p id) else Ctx.node? target p
  | Ctx.timerCtx p id d =>
      if id = target then some (Ctx.timerCtx p id d) else Ctx.node? target p
  | Ctx.valueCtx p _ _ => Ctx.node? target p
  | Ctx.loggerCtx p _ => Ctx.node? target p
  | Ctx.foreign _ _ _ => none

/-- Whether a cancellation node allocated as `id` occurs in the chain of a
context. -/
def Ctx.uses (id : Nat) : Ctx Z → Bool
  | Ctx.emptyCtx _ => false
  | Ctx.cancelCtx p i => i = id || Ctx.uses id p
  | Ctx.timerCtx p i _ => i = id || Ctx.uses id p
  | Ctx.valueCtx p _ _ => Ctx.uses id p
  | Ctx.loggerCtx p _ => Ctx.uses id p
  | Ctx.foreign _ _ _ => false

/-- Calling the cancel function `f` that was returned together with the context
`c`: the node it closes over is cancelled with `Canceled`, unless that node is
cancelled already, in which case the call does nothing. -/
def CancelFunc.call (f : CancelFunc) (c : Ctx Z) (w : World Z) : World Z :=
  match c.node? f.target with
  | some n =>
      if (n.Err w).isSome then w
      else ⟨w.now, fun i => if i = f.target then some context.Error.Canceled else w.err i,
        w.outside⟩
  | none => w

/-! ## Contexts built with the package -/

/-- The loggers stored at the bound nodes in the chain of a context, nearest
first. -/
def Ctx.loggers : Ctx Z → List Z.Logger
  | Ctx.emptyCtx _ => []
  | Ctx.cancelCtx p _ => Ctx.loggers p
  | Ctx.timerCtx p _ _ => Ctx.loggers p
  | Ctx.valueCtx p _ _ => Ctx.loggers p
  | Ctx.loggerCtx p l => l :: Ctx.loggers p
  | Ctx.foreign _ _ _ => []

/-- The contexts built from `context.Background()` or `context.TODO()` by the
operations of the package and of the context library, where every logger given
to `WithLogger` is non-nil and a context stored as a value is built likewise. -/
inductive Built : Ctx Z → Prop where
  | root (todo : Bool) : Built (Ctx.emptyCtx todo)
  | Logger {p : Ctx Z} : Built p → Built (Logger p)
  | WithLogger {p : Ctx Z} (l : Z.Logger) :
      Z.IsNil l = false → Built p → Built (WithLogger p l)
  | WithFields {p : Ctx Z} (fs : List Z.Field) : Built p → Built (WithFields p fs)
  | WithOptions {p : Ctx Z} (os : List Z.Opt) : Built p → Built (WithOptions p os)
  | With (lc : loggerCtx Z) (fs : List Z.Field) : Built lc.toCtx → Built (lc.With fs)
  | WithOptionsMethod (lc : loggerCtx Z) (os : List Z.Opt) :
      Built lc.toCtx → Built (lc.WithOptions os)
  | WithCancel {p : Ctx Z} (id : Nat) : Built p → Built (WithCancel id p).1
  | WithDeadline {p : Ctx Z} (id : Nat) (d : Int) : Built p → Built (WithDeadline id p d).1
  | WithTimeout {p : Ctx Z} (id : Nat) (now t : Int) :
      Built p → Built (WithTimeout id now p t).1
  | WithValue {p r : Ctx Z} (k : Key) (v : Val Z) :
      Built p → (∀ c, v = Val.ctx c → Built c) → WithValue p k v = some r → Built r
  | cancel {p : Ctx Z} (id : Nat) : Built p → Built (Ctx.cancelCtx p id)
  | timer {p : Ctx Z} (id : Nat) (d : Int) : Built p → Built (Ctx.timerCtx p id d)
  | value {p r : Ctx Z} (k : Key) (v : Val Z) :
      Built p → (∀ c, v = Val.ctx c → Built c) → context.WithValue p k v = some r → Built r

/-- Every bound node reachable from a context, along its chain or through a
stored value, holds a non-nil logger. -/
inductive Present : Ctx Z → Prop where
  | root (todo : Bool) : Present (Ctx.emptyCtx todo)
  | cancel {p : Ctx Z} (id : Nat) : Present p → Present (Ctx.cancelCtx p id)
  | timer {p : Ctx Z} (id : Nat) (d : Int) : Present p → Present (Ctx.timerCtx p id d)
  | value {p : Ctx Z} (k : Key) (v : Val Z) :
      Present p → (∀ c, v = Val.ctx c → Present c) → Present (Ctx.valueCtx p k v)
  | bound {p : Ctx Z} (l : Z.Logger) :
      Z.IsNil l = false → Present p → Present (Ctx.loggerCtx p l)

/-- A second concrete logger library, with a nil pointer: a logger is nil or
the list of fields merged so far. -/
@[reducible]
def Z1 : Zap where
  Logger := Option (List Nat)
  Field := Nat
  Opt := Nat
  Record := List Nat
  IsNil := fun l => l.isNone
  NewNop := some []
  With := fun l fs => l.map (fun a => a ++ fs)
  WithOptions := fun l _ => l
  Log := fun _ l _ fs =>
    match l with
    | some a => ⟨[a ++ fs], false⟩
    | none => ⟨[], true⟩

/-! ## The logger library, as documented -/

/-- A writing core of zap: the levels it is enabled at and the fields merged
into it so far. -/
structure zap.Core where
  enabled : List ZapLogger
  fields : List (String × String)
  deriving DecidableEq, Repr

/-- A non-nil `*zap.Logger`: its core (`none` is the no-op core) and whether it
is in development mode. -/
structure zap.Logger where
  core : Option zap.Core
  development : Bool
  deriving DecidableEq, Repr

/-- The library `go.uber.org/zap` as its documentation describes it.
`NewNop` returns a logger that never writes.  `With` creates a child logger
with the fields added to its core; the no-op core has nothing to add them to.
An option is any change of the logger.  A levelled call writes one record, the
merged fields followed by the call's own, when the core is enabled at that
level; `Panic` then panics and `Fatal` then ends the process, both even when the
level is disabled, and `DPanic` panics in development mode. -/
@[reducible]
def zap.lib : Zap where
  Logger := zap.Logger
  Field := String × String
  Opt := zap.Logger → zap.Logger
  Record := ZapLogger × String × List (String × String)
  IsNil := fun _ => false
  NewNop := ⟨none, false⟩
  With := fun l fs => ⟨l.core.map (fun c => ⟨c.enabled, c.fields ++ fs⟩), l.development⟩
  WithOptions := fun l os => os.foldl (fun a o => o a) l
  Log := fun m l msg fs =>
    ⟨match l.core with
      | some c => if m ∈ c.enabled then [(m, msg, c.fields ++ fs)] else []
      | none => [],
     decide (m = ZapLogger.Panic ∨ m = ZapLogger.Fatal) ||
       (decide (m = ZapLogger.DPanic) && l.development)⟩

/-! ## The package over a store

The same functions with the structs of the package and the loggers of the
library held in a store and named by their addresses, so that what a derivation
writes can be told from what it leaves alone. -/

namespace store

/-- An `interface{}` value, a `*loggerCtx` being given by its address. -/
inductive Val where
  | nil
  | user (n : Nat)
  | ptr (a : Nat)

/-- A non-nil `context.Context` value, a `*loggerCtx` being given by its
address. -/
inductive Ctx where
  | emptyCtx (todo : Bool)
  | cancelCtx (Context : Ctx) (id : Nat)
  | timerCtx (Context : Ctx) (id : Nat) (deadline : Int)
  | valueCtx (Context : Ctx) (key : Key) (val : Val)
  | ptr (a : Nat)
  | foreign (bound : Bool) (value : Key → Val)

/-- The struct `loggerCtx` as it lies in the store: the embedded context and
the address of the embedded `*zap.Logger`. -/
structure Cell where
  Context : Ctx
  Logger : Nat

/-- The store: the structs allocated so far, the loggers allocated so far (each
described by its state) and the address held by the variable `baseLogger`.  An
address that is not allocated is a nil or dangling pointer. -/
structure Mem (Z : Zap) where
  nodes : List Cell
  loggers : List Z.Logger
  baseLogger : Nat

/-- The lookup rules of `Value`, with `deref a key` standing for the lookup
that the struct at address `a` passes on to its embedded context. -/
def Ctx.lookup (deref : Nat → Key → Option Val) : Ctx → Key → Option Val
  | Ctx.emptyCtx _, _ => some Val.nil
  | Ctx.cancelCtx p _, key => Ctx.lookup deref p key
  | Ctx.timerCtx p _ _, key => Ctx.lookup deref p key
  | Ctx.valueCtx p k v, key => if k = key then some v else Ctx.lookup deref p key
  | Ctx.ptr a, key => if key = Key.loggerKey then some (Val.ptr a) else deref a key
  | Ctx.foreign _ value, key => some (value key)

/-- The method `Value` in a store, passing through at most `fuel` structs;
`none` when the fuel runs out or a pointer dangles. -/
def Mem.lookup (m : Mem Z) : Nat → Ctx → Key → Option Val
  | 0 => Ctx.lookup (fun _ _ => none)
  | fuel + 1 =>
      Ctx.lookup (fun a key =>
        match m.nodes[a]? with
        | some cell => Mem.lookup m fuel cell.Context key
        | none => none)

/-- The method `Value` in a store, with fuel for every struct of the store. -/
def Mem.Value (m : Mem Z) (c : Ctx) (key : Key) : Option Val :=
  m.lookup m.nodes.length c key

/-- Every address in a value is below `n`. -/
def Val.within (n : Nat) : Val → Prop
  | Val.ptr a => a < n
  | _ => True

/-- Every address in a context is below `n`. -/
def Ctx.within (n : Nat) : Ctx → Prop
  | Ctx.emptyCtx _ => True
  | Ctx.cancelCtx p _ => Ctx.within n p
  | Ctx.timerCtx p _ _ => Ctx.within n p
  | Ctx.valueCtx p _ v => Ctx.within n p ∧ v.within n
  | Ctx.ptr a => a < n
  | Ctx.foreign _ value => ∀ k, (value k).within n

/-- A store as allocation builds it: the context embedded in a struct refers
only to structs allocated before that struct. -/
def Mem.wf (m : Mem Z) : Prop :=
  ∀ (a : Nat) (cell : Cell), m.nodes[a]? = some cell → cell.Context.within a

/-- The expression `&loggerCtx{Context, Logger}`: a new struct at the next
address. -/
def Mem.new (m : Mem Z) (cell : Cell) : Mem Z × Nat :=
  (⟨m.nodes ++ [cell], m.loggers, m.baseLogger⟩, m.nodes.length)

/-- The call `l.With(fields...)` of the library, which as documented creates a
child logger and leaves the receiver as it is; `none` is a nil dereference. -/
def Mem.zapWith (m : Mem Z) (l : Nat) (fields : List Z.Field) : Option (Mem Z × Nat) :=
  match m.loggers[l]? with
  | some state => some (⟨m.nodes, m.loggers ++ [Z.With state fields], m.baseLogger⟩,
      m.loggers.length)
  | none => none

/-- The call `l.WithOptions(options...)` of the library, which as documented
clones the receiver and applies the options to the clone. -/
def Mem.zapWithOptions (m : Mem Z) (l : Nat) (options : List Z.Opt) :
    Option (Mem Z × Nat) :=
  match m.loggers[l]? with
  | some state => some (⟨m.nodes, m.loggers ++ [Z.WithOptions state options], m.baseLogger⟩,
      m.loggers.length)
  | none => none

/-- `func (lc *loggerCtx) With(fields ...zap.Field) LoggerContext`. -/
def loggerCtx.With (m : Mem Z) (lc : Nat) (fields : List Z.Field) : Option (Mem Z × Nat) :=
  match m.nodes[lc]? with
  | none => none
  | some cell =>
    match m.zapWith cell.Logger fields with
    | none => none
    | some r => some (r.1.new ⟨Ctx.ptr lc, r.2⟩)

/-- `func (lc *loggerCtx) WithOptions(options ...zap.Option) LoggerContext`. -/
def loggerCtx.WithOptions (m : Mem Z) (lc : Nat) (options : List Z.Opt) :
    Option (Mem Z × Nat) :=
  match m.nodes[lc]? with
  | none => none
  | some cell =>
    match m.zapWithOptions cell.Logger options with
    | none => none
    | some r => some (r.1.new ⟨Ctx.ptr lc, r.2⟩)

/-- `func WithLogger(parent context.Context, logger *zap.Logger) LoggerContext`. -/
def WithLogger (m : Mem Z) (parent : Ctx) (logger : Nat) : Option (Mem Z × Nat) :=
  some (m.new ⟨parent, logger⟩)

/-- `func WithFields(parent context.Context, fields ...zap.Field) LoggerContext`. -/
def WithFields (m : Mem Z) (parent : Ctx) (fields : List Z.Field) : Option (Mem Z × Nat) :=
  match m.Value parent Key.loggerKey with
  | none => none
  | some (Val.ptr a) =>
    match m.nodes[a]? with
    | none => none
    | some lc =>
      match m.zapWith lc.Logger fields with
      | none => none
      | some r => some (r.1.new ⟨parent, r.2⟩)
  | some _ =>
    match m.zapWith m.baseLogger fields with
    | none => none
    | some r => some (r.1.new ⟨parent, r.2⟩)

/-- `func WithOptions(parent context.Context, options ...zap.Option) LoggerContext`. -/
def WithOptions (m : Mem Z) (parent : Ctx) (options : List Z.Opt) : Option (Mem Z × Nat) :=
  match m.Value parent Key.loggerKey with
  | none => none
  | some (Val.ptr a) =>
    match m.nodes[a]? with
    | none => none
    | some lc =>
      match m.zapWithOptions lc.Logger options with
      | none => none
      | some r => some (r.1.new ⟨parent, r.2⟩)
  | some _ =>
    match m.zapWithOptions m.baseLogger options with
    | none => none
    | some r => some (r.1.new ⟨parent, r.2⟩)

/-- The derivations from a bound node: its two methods and the three free
functions applied to it. -/
inductive Derivation (Z : Zap) where
  | With (fields : List Z.Field)
  | WithOptionsMethod (options : List Z.Opt)
  | WithFields (fields : List Z.Field)
  | WithOptions (options : List Z.Opt)
  | WithLogger (logger : Nat)

/-- Running a derivation from the bound node at address `b`. -/
def Derivation.run (m : Mem Z) (b : Nat) : Derivation Z → Option (Mem Z × Nat)
  | Derivation.With fields => loggerCtx.With m b fields
  | Derivation.WithOptionsMethod options => loggerCtx.WithOptions m b options
  | Derivation.WithFields fields => store.WithFields m (Ctx.ptr b) fields
  | Derivation.WithOptions options => store.WithOptions m (Ctx.ptr b) options
  | Derivation.WithLogger logger => store.WithLogger m (Ctx.ptr b) logger

end store

/-! ## Lemmas on lookup and resolution -/

theorem Logger_of_isLoggerContext {p : Ctx Z} (h : p.isLoggerContext = true) :
    Logger p = p := by
  simp [Logger, h]

theorem Logger_of_lookup_some {p : Ctx Z} {lc : loggerCtx Z}
    (hp : p.isLoggerContext = false)
    (h : (p.Value Key.loggerKey).asLoggerCtx = some lc) :
    Logger p = Ctx.loggerCtx p lc.Logger := by
  simp [Logger, hp, h]

theorem Logger_of_lookup_none {p : Ctx Z}
    (hp : p.isLoggerContext = false)
    (h : (p.Value Key.loggerKey).asLoggerCtx = none) :
    Logger p = Ctx.loggerCtx p (baseLogger Z) := by
  simp [Logger, hp, h]

theorem isLoggerContext_Logger (p : Ctx Z) : (Logger p).isLoggerContext = true := by
  unfold Logger
  split
  · assumption
  · split <;> rfl

theorem Value_loggerCtx_self (q : Ctx Z) (L : Z.Logger) :
    (Ctx.loggerCtx q L).Value Key.loggerKey = Val.ctx (Ctx.loggerCtx q L) := by
  simp [Ctx.Value]

theorem Value_loggerCtx_other (q : Ctx Z) (L : Z.Logger) {k : Key}
    (hk : k ≠ Key.loggerKey) : (Ctx.loggerCtx q L).Value k = q.Value k := by
  simp [Ctx.Value, hk]

/-- Along a chain of plain derivations the marker lookup is the one of the
chain's origin. -/
theorem Value_loggerKey_of_Derived {a p : Ctx Z} (h : Derived a p) :
    p.Value Key.loggerKey = a.Value Key.loggerKey := by
  induction h with
  | refl => rfl
  | cancel id _ ih => simpa [Ctx.Value] using ih
  | timer id d _ ih => simpa [Ctx.Value] using ih
  | value n v _ ih => simpa [Ctx.Value] using ih

/-- A context derived from a root by plain derivations does not satisfy
`LoggerContext`. -/
theorem isLoggerContext_of_Derived_root {t : Bool} {p : Ctx Z}
    (h : Derived (Ctx.emptyCtx t) p) : p.isLoggerContext = false := by
  cases h <;> rfl

/-- The marker lookup below a bound node finds that node. -/
theorem lookup_of_Derived_loggerCtx {q p : Ctx Z} {L : Z.Logger}
    (h : Derived (Ctx.loggerCtx q L) p) :
    (p.Value Key.loggerKey).asLoggerCtx = some ⟨q, L⟩ := by
  rw [Value_loggerKey_of_Derived h, Value_loggerCtx_self]
  rfl

/-- The marker lookup below a root finds nothing. -/
theorem lookup_of_Derived_root {t : Bool} {p : Ctx Z}
    (h : Derived (Ctx.emptyCtx t) p) :
    (p.Value Key.loggerKey).asLoggerCtx = none := by
  rw [Value_loggerKey_of_Derived h]
  rfl

/-- Resolution of anything derived from a bound node yields that node's logger. -/
theorem Logger_of_Derived_loggerCtx {q p : Ctx Z} {L : Z.Logger}
    (h : Derived (Ctx.loggerCtx q L) p) :
    (Logger p).asLoggerCtx.map loggerCtx.Logger = some L := by
  by_cases hp : p.isLoggerContext = true
  · rw [Logger_of_isLoggerContext hp]
    cases h with
    | refl => rfl
    | cancel id _ => simp [Ctx.isLoggerContext] at hp
    | timer id d _ => simp [Ctx.isLoggerContext] at hp
    | value n v _ => simp [Ctx.isLoggerContext] at hp
  · have hp2 : p.isLoggerContext = false := by simpa using hp
    rw [Logger_of_lookup_some hp2 (lookup_of_Derived_loggerCtx h)]
    rfl

/-- The marker lookup at `p` finds the logger that `Logger p` stores, whenever
`Logger p` is a node of the package. -/
theorem lookup_of_Logger (p : Ctx Z) (lc : loggerCtx Z)
    (h : (Logger p).asLoggerCtx = some lc) :
    (match (p.Value Key.loggerKey).asLoggerCtx with
      | some c => c.Logger
      | none => baseLogger Z) = lc.Logger := by
  by_cases hp : p.isLoggerContext = true
  · rw [Logger_of_isLoggerContext hp] at h
    cases p with
    | loggerCtx q L =>
      simp only [Ctx.asLoggerCtx, Option.some.injEq] at h
      subst h
      simp [Ctx.Value, Val.asLoggerCtx]
    | emptyCtx _ => simp [Ctx.asLoggerCtx] at h
    | cancelCtx _ _ => simp [Ctx.asLoggerCtx] at h
    | timerCtx _ _ _ => simp [Ctx.asLoggerCtx] at h
    | valueCtx _ _ _ => simp [Ctx.asLoggerCtx] at h
    | foreign _ _ _ => simp [Ctx.asLoggerCtx] at h
  · have hp2 : p.isLoggerContext = false := by simpa using hp
    unfold Logger at h
    rw [if_neg (by simp [hp2])] at h
    split at h <;>
      simp only [Ctx.asLoggerCtx, Option.some.injEq] at h <;> subst h <;> rfl

theorem WithFields_of_Logger (p : Ctx Z) (fs : List Z.Field) (lc : loggerCtx Z)
    (h : (Logger p).asLoggerCtx = some lc) :
    WithFields p fs = Ctx.loggerCtx p (Z.With lc.Logger fs) := by
  rw [← lookup_of_Logger p lc h]
  unfold WithFields
  split <;> rfl

theorem WithOptions_of_Logger (p : Ctx Z) (os : List Z.Opt) (lc : loggerCtx Z)
    (h : (Logger p).asLoggerCtx = some lc) :
    WithOptions p os = Ctx.loggerCtx p (Z.WithOptions lc.Logger os) := by
  rw [← lookup_of_Logger p lc h]
  unfold WithOptions
  split <;> rfl

/-- The result of `Logger` is a node of the package unless the argument is
another implementation of `LoggerContext`, which is returned as it is. -/
theorem Logger_not_node (p : Ctx Z) (h : (Logger p).asLoggerCtx = none) :
    ∃ dl v, p = Ctx.foreign true dl v := by
  by_cases hp : p.isLoggerContext = true
  · rw [Logger_of_isLoggerContext hp] at h
    cases p with
    | foreign b dl v =>
      simp only [Ctx.isLoggerContext] at hp
      subst hp
      exact ⟨dl, v, rfl⟩
    | loggerCtx q L => simp [Ctx.asLoggerCtx] at h
    | emptyCtx _ => simp [Ctx.isLoggerContext] at hp
    | cancelCtx _ _ => simp [Ctx.isLoggerContext] at hp
    | timerCtx _ _ _ => simp [Ctx.isLoggerContext] at hp
    | valueCtx _ _ _ => simp [Ctx.isLoggerContext] at hp
  · have hp2 : p.isLoggerContext = false := by simpa using hp
    unfold Logger at h
    rw [if_neg (by simp [hp2])] at h
    split at h <;> simp [Ctx.asLoggerCtx] at h

/-- Plain derivations of a context that does not satisfy `LoggerContext` do not
satisfy it either. -/
theorem isLoggerContext_of_Derived {a d : Ctx Z} (ha : a.isLoggerContext = false)
    (h : Derived a d) : d.isLoggerContext = false := by
  cases h with
  | refl => exact ha
  | cancel id _ => rfl
  | timer id dl _ => rfl
  | value n v _ => rfl

/-- The marker lookup below a value stored under the marker key finds that
value. -/
theorem lookup_of_Derived_marker {q d : Ctx Z} {v : Val Z}
    (h : Derived (Ctx.valueCtx q Key.loggerKey v) d) :
    d.Value Key.loggerKey = v := by
  rw [Value_loggerKey_of_Derived h]
  simp [Ctx.Value]

/-- The error a context reports depends on the recorded errors only at the
cancellation nodes of its chain. -/
theorem Err_frame (w : World Z) (id : Nat) (e : Option context.Error) (c : Ctx Z)
    (h : c.uses id = false) :
    c.Err ⟨w.now, fun i => if i = id then e else w.err i, w.outside⟩ = c.Err w := by
  match c with
  | Ctx.emptyCtx _ => rfl
  | Ctx.cancelCtx p i =>
    simp only [Ctx.uses, Bool.or_eq_false_iff, decide_eq_false_iff_not] at h
    simp only [Ctx.Err, if_neg h.1, Err_frame w id e p h.2]
  | Ctx.timerCtx p i d =>
    simp only [Ctx.uses, Bool.or_eq_false_iff, decide_eq_false_iff_not] at h
    simp only [Ctx.Err, if_neg h.1, Err_frame w id e p h.2]
  | Ctx.valueCtx p _ _ =>
    simp only [Ctx.uses] at h
    simp only [Ctx.Err, Err_frame w id e p h]
  | Ctx.loggerCtx p _ =>
    simp only [Ctx.uses] at h
    simp only [Ctx.Err, Err_frame w id e p h]
  | Ctx.foreign _ _ _ => rfl

/-- Cancelling a fresh, live cancellation node below `b`. -/
theorem call_cancelCtx (w : World Z) (b : Ctx Z) (L : Z.Logger) (id : Nat)
    (hb : b.Err w = none) (hw : w.err id = none) (hid : b.uses id = false) :
    (Ctx.loggerCtx (Ctx.cancelCtx b id) L).Err
        (CancelFunc.call ⟨id⟩ (Ctx.loggerCtx (Ctx.cancelCtx b id) L) w)
      = some context.Error.Canceled ∧
    b.Err (CancelFunc.call ⟨id⟩ (Ctx.loggerCtx (Ctx.cancelCtx b id) L) w) = none := by
  have hn : (Ctx.cancelCtx b id).Err w = none := by simp [Ctx.Err, hw, hb]
  have hc : CancelFunc.call ⟨id⟩ (Ctx.loggerCtx (Ctx.cancelCtx b id) L) w
      = ⟨w.now, fun i => if i = id then some context.Error.Canceled else w.err i,
          w.outside⟩ := by
    simp [CancelFunc.call, Ctx.node?, hn]
  rw [hc, Err_frame w id _ b hid]
  exact ⟨by simp [Ctx.Err], hb⟩

/-- Cancelling a fresh timer node below `b`: `Canceled` when the deadline is
still ahead, `DeadlineExceeded` when it has passed. -/
theorem call_timerCtx (w : World Z) (b : Ctx Z) (L : Z.Logger) (id : Nat) (d : Int)
    (hb : b.Err w = none) (hw : w.err id = none) (hid : b.uses id = false) :
    (Ctx.loggerCtx (Ctx.timerCtx b id d) L).Err
        (CancelFunc.call ⟨id⟩ (Ctx.loggerCtx (Ctx.timerCtx b id d) L) w)
      = some (if d ≤ w.now then context.Error.DeadlineExceeded
          else context.Error.Canceled) ∧
    b.Err (CancelFunc.call ⟨id⟩ (Ctx.loggerCtx (Ctx.timerCtx b id d) L) w) = none := by
  by_cases hd : d ≤ w.now
  · have hn : (Ctx.timerCtx b id d).Err w = some context.Error.DeadlineExceeded := by
      simp [Ctx.Err, hw, hb, hd]
    have hc : CancelFunc.call ⟨id⟩ (Ctx.loggerCtx (Ctx.timerCtx b id d) L) w = w := by
      simp [CancelFunc.call, Ctx.node?, hn]
    rw [hc]
    exact ⟨by simp [Ctx.Err, hw, hb, hd], hb⟩
  · have hn : (Ctx.timerCtx b id d).Err w = none := by simp [Ctx.Err, hw, hb, hd]
    have hc : CancelFunc.call ⟨id⟩ (Ctx.loggerCtx (Ctx.timerCtx b id d) L) w
        = ⟨w.now, fun i => if i = id then some context.Error.Canceled else w.err i,
            w.outside⟩ := by
      simp [CancelFunc.call, Ctx.node?, hn]
    rw [hc, Err_frame w id _ b hid]
    exact ⟨by simp [Ctx.Err, hd], hb⟩

/-- The two shapes of `WithTimeout` on a bound node: a cancellation node when
the parent's deadline is earlier, a timer node otherwise. -/
theorem WithTimeout_loggerCtx (q : Ctx Z) (L : Z.Logger) (id : Nat) (now t : Int) :
    WithTimeout id now (Ctx.loggerCtx q L) t
      = (Ctx.loggerCtx (Ctx.cancelCtx (Ctx.loggerCtx q L) id) L, ⟨id⟩) ∨
    WithTimeout id now (Ctx.loggerCtx q L) t
      = (Ctx.loggerCtx (Ctx.timerCtx (Ctx.loggerCtx q L) id (now + t)) L, ⟨id⟩) := by
  unfold WithTimeout context.WithTimeout context.WithDeadline context.WithCancel
  split
  · split
    · left; simp [Logger, Ctx.isLoggerContext, Ctx.Value, Val.asLoggerCtx]
    · right; simp [Logger, Ctx.isLoggerContext, Ctx.Value, Val.asLoggerCtx]
  · right; simp [Logger, Ctx.isLoggerContext, Ctx.Value, Val.asLoggerCtx]

/-- Without a deadline above it, `WithTimeout` on a bound node builds a timer
node. -/
theorem WithTimeout_loggerCtx_timer (q : Ctx Z) (L : Z.Logger) (id : Nat) (now t : Int)
    (h : (Ctx.loggerCtx q L).Deadline = none) :
    WithTimeout id now (Ctx.loggerCtx q L) t
      = (Ctx.loggerCtx (Ctx.timerCtx (Ctx.loggerCtx q L) id (now + t)) L, ⟨id⟩) := by
  simp [WithTimeout, context.WithTimeout, context.WithDeadline, h, Logger,
    Ctx.isLoggerContext, Ctx.Value, Val.asLoggerCtx]

/-- The library's `WithValue` returns exactly on the keys it accepts, with the
value node. -/
theorem context.WithValue_returns {p r : Ctx Z} {k : Key} {v : Val Z} :
    context.WithValue p k v = some r ↔ k.usable = true ∧ r = Ctx.valueCtx p k v := by
  unfold context.WithValue
  split
  · rename_i h
    simp only [Option.some.injEq, h, true_and]
    exact eq_comm
  · rename_i h
    simp [h]

/-- The package's `WithValue` returns exactly on the keys the library accepts,
with the resolution of the value node. -/
theorem WithValue_eq_some {p r : Ctx Z} {k : Key} {v : Val Z} :
    WithValue p k v = some r ↔ k.usable = true ∧ r = Logger (Ctx.valueCtx p k v) := by
  unfold WithValue context.WithValue
  split
  · rename_i ctx h
    split at h
    · rename_i hk
      simp only [Option.some.injEq] at h
      subst h
      simp only [Option.some.injEq, hk, true_and]
      exact eq_comm
    · simp at h
  · rename_i h
    split at h
    · simp at h
    · rename_i hk
      simp [hk]

/-- A value that passes the assertion `.(*loggerCtx)` is that node. -/
theorem Val.eq_of_asLoggerCtx {v : Val Z} {lc : loggerCtx Z}
    (h : v.asLoggerCtx = some lc) : v = Val.ctx (Ctx.loggerCtx lc.Context lc.Logger) := by
  match v with
  | Val.nil => simp [Val.asLoggerCtx] at h
  | Val.user _ => simp [Val.asLoggerCtx] at h
  | Val.ctx (Ctx.loggerCtx p l) =>
    simp only [Val.asLoggerCtx, Option.some.injEq] at h
    subst h
    rfl
  | Val.ctx (Ctx.emptyCtx _) => simp [Val.asLoggerCtx] at h
  | Val.ctx (Ctx.cancelCtx _ _) => simp [Val.asLoggerCtx] at h
  | Val.ctx (Ctx.timerCtx _ _ _) => simp [Val.asLoggerCtx] at h
  | Val.ctx (Ctx.valueCtx _ _ _) => simp [Val.asLoggerCtx] at h
  | Val.ctx (Ctx.foreign _ _ _) => simp [Val.asLoggerCtx] at h

/-- Every context found by a lookup in a context with present loggers has
present loggers. -/
theorem Present.of_Value {c : Ctx Z} (h : Present c) :
    ∀ (k : Key) (r : Ctx Z), c.Value k = Val.ctx r → Present r := by
  induction h with
  | root todo => intro k r hr; simp [Ctx.Value] at hr
  | cancel id _ ih => intro k r hr; exact ih k r (by simpa [Ctx.Value] using hr)
  | timer id d _ ih => intro k r hr; exact ih k r (by simpa [Ctx.Value] using hr)
  | value k0 v _ hv ih _ =>
    intro k r hr
    simp only [Ctx.Value] at hr
    split at hr
    · exact hv r hr
    · exact ih k r hr
  | bound l hl hp ih =>
    intro k r hr
    simp only [Ctx.Value] at hr
    split at hr
    · simp only [Val.ctx.injEq] at hr
      subst hr
      exact Present.bound l hl hp
    · exact ih k r hr

theorem Present.loggers {c : Ctx Z} (h : Present c) :
    ∀ l ∈ c.loggers, Z.IsNil l = false := by
  induction h with
  | root todo => intro l hl; simp [Ctx.loggers] at hl
  | cancel id _ ih => simpa [Ctx.loggers] using ih
  | timer id d _ ih => simpa [Ctx.loggers] using ih
  | value k0 v _ _ ih _ => simpa [Ctx.loggers] using ih
  | bound l0 hl _ ih =>
    intro l hmem
    simp only [Ctx.loggers, List.mem_cons] at hmem
    rcases hmem with h | h
    · rw [h]; exact hl
    · exact ih l h

/-- The logger found by the marker lookup in a context with present loggers is
non-nil. -/
theorem Present.lookup {p : Ctx Z} (h : Present p) {lc : loggerCtx Z}
    (hl : (p.Value Key.loggerKey).asLoggerCtx = some lc) : Z.IsNil lc.Logger = false := by
  have hp := h.of_Value Key.loggerKey _ (Val.eq_of_asLoggerCtx hl)
  cases hp with
  | bound l hnil _ => exact hnil

theorem Present.Logger {p : Ctx Z} (hNop : Z.IsNil Z.NewNop = false) (h : Present p) :
    Present (Logger p) := by
  unfold zapctx.Logger
  split
  · exact h
  · split
    · rename_i lc hl
      exact Present.bound _ (h.lookup hl) h
    · exact Present.bound _ hNop h

theorem Present.WithFields {p : Ctx Z} (hNop : Z.IsNil Z.NewNop = false)
    (hWith : ∀ l fs, Z.IsNil l = false → Z.IsNil (Z.With l fs) = false)
    (fs : List Z.Field) (h : Present p) : Present (WithFields p fs) := by
  unfold zapctx.WithFields
  split
  · rename_i lc hl
    exact Present.bound _ (hWith _ _ (h.lookup hl)) h
  · exact Present.bound _ (hWith _ _ hNop) h

theorem Present.WithOptions {p : Ctx Z} (hNop : Z.IsNil Z.NewNop = false)
    (hOpts : ∀ l os, Z.IsNil l = false → Z.IsNil (Z.WithOptions l os) = false)
    (os : List Z.Opt) (h : Present p) : Present (WithOptions p os) := by
  unfold zapctx.WithOptions
  split
  · rename_i lc hl
    exact Present.bound _ (hOpts _ _ (h.lookup hl)) h
  · exact Present.bound _ (hOpts _ _ hNop) h

theorem Present.context_WithDeadline {p : Ctx Z} (id : Nat) (d : Int) (h : Present p) :
    Present (context.WithDeadline id p d).1 := by
  unfold context.WithDeadline context.WithCancel
  split
  · split
    · exact Present.cancel id h
    · exact Present.timer id d h
  · exact Present.timer id d h

/-- Every context built with the package has present loggers, as long as the
library's no-op logger is non-nil and `With` and `WithOptions` keep a logger
non-nil. -/
theorem Present.of_Built {c : Ctx Z} (hNop : Z.IsNil Z.NewNop = false)
    (hWith : ∀ l fs, Z.IsNil l = false → Z.IsNil (Z.With l fs) = false)
    (hOpts : ∀ l os, Z.IsNil l = false → Z.IsNil (Z.WithOptions l os) = false)
    (h : Built c) : Present c := by
  induction h with
  | root todo => exact Present.root todo
  | Logger _ ih => exact Present.Logger hNop ih
  | WithLogger l hl _ ih => exact Present.bound l hl ih
  | WithFields fs _ ih => exact Present.WithFields hNop hWith fs ih
  | WithOptions os _ ih => exact Present.WithOptions hNop hOpts os ih
  | With lc fs _ ih =>
    cases ih with
    | bound l hl hp => exact Present.bound _ (hWith _ _ hl) (Present.bound _ hl hp)
  | WithOptionsMethod lc os _ ih =>
    cases ih with
    | bound l hl hp => exact Present.bound _ (hOpts _ _ hl) (Present.bound _ hl hp)
  | WithCancel id _ ih => exact Present.Logger hNop (Present.cancel id ih)
  | WithDeadline id d _ ih =>
    exact Present.Logger hNop (Present.context_WithDeadline id d ih)
  | WithTimeout id now t _ ih =>
    exact Present.Logger hNop (Present.context_WithDeadline id (now + t) ih)
  | WithValue k v _ _ hr ih ihv =>
    rw [WithValue_eq_some] at hr
    rw [hr.2]
    exact Present.Logger hNop (Present.value k v ih ihv)
  | cancel id _ ih => exact Present.cancel id ih
  | timer id d _ ih => exact Present.timer id d ih
  | value k v _ _ hr ih ihv =>
    rw [context.WithValue_returns] at hr
    rw [hr.2]
    exact Present.value k v ih ihv

/-! ## Lemmas on the store -/

namespace store

theorem Ctx.lookup_agree (D1 D2 : Nat → Key → Option Val) (n : Nat) (k : Key)
    (h : ∀ a, a < n → ∃ v, D1 a k = some v ∧ D2 a k = some v) :
    ∀ c : Ctx, c.within n → ∃ v, Ctx.lookup D1 c k = some v ∧ Ctx.lookup D2 c k = some v := by
  intro c
  induction c with
  | emptyCtx t => intro _; exact ⟨_, rfl, rfl⟩
  | cancelCtx p id ih => intro hc; exact ih hc
  | timerCtx p id d ih => intro hc; exact ih hc
  | valueCtx p key v ih =>
    intro hc
    simp only [Ctx.lookup]
    split
    · exact ⟨_, rfl, rfl⟩
    · exact ih hc.1
  | ptr a =>
    intro hc
    simp only [Ctx.lookup]
    split
    · exact ⟨_, rfl, rfl⟩
    · exact h a hc
  | foreign b value => intro _; exact ⟨_, rfl, rfl⟩

theorem Mem.lookup_extends (m m1 : Mem Z) (k : Key)
    (hclosed : ∀ (a : Nat) (cell : Cell), m.nodes[a]? = some cell → cell.Context.within a)
    (hext : ∀ (a : Nat) (cell : Cell), m.nodes[a]? = some cell → m1.nodes[a]? = some cell) :
    ∀ (f g n : Nat) (c : Ctx), c.within n → n ≤ f → n ≤ g → n ≤ m.nodes.length →
      ∃ v, m.lookup f c k = some v ∧ m1.lookup g c k = some v := by
  intro f
  induction f with
  | zero =>
    intro g n c hc hf hg hn
    have h0 : n = 0 := by omega
    subst h0
    cases g with
    | zero => exact Ctx.lookup_agree _ _ 0 k (fun a ha => absurd ha (by omega)) c hc
    | succ g => exact Ctx.lookup_agree _ _ 0 k (fun a ha => absurd ha (by omega)) c hc
  | succ f ih =>
    intro g n c hc hf hg hn
    cases g with
    | zero =>
      have h0 : n = 0 := by omega
      subst h0
      exact Ctx.lookup_agree _ _ 0 k (fun a ha => absurd ha (by omega)) c hc
    | succ g =>
      refine Ctx.lookup_agree _ _ n k ?_ c hc
      intro a ha
      have hlt : a < m.nodes.length := by omega
      have hcell : m.nodes[a]? = some m.nodes[a] := List.getElem?_eq_getElem hlt
      simp only [hcell, hext a _ hcell]
      exact ih g a _ (hclosed a _ hcell) (by omega) (by omega) (by omega)


theorem getElem?_append_cons {α : Type} (l : List α) (a : α) (r : List α) :
    (l ++ a :: r)[l.length]? = some a := by
  induction l with
  | nil => simp
  | cons x xs ih => simpa using ih

/-- Allocating a struct around a context of the store keeps the store
well-formed. -/
theorem Mem.wf_new (m : Mem Z) (hwf : m.wf) (c : Ctx) (l : Nat) (ls : List Z.Logger)
    (bl : Nat) (hc : c.within m.nodes.length) :
    Mem.wf (⟨m.nodes ++ [⟨c, l⟩], ls, bl⟩ : Mem Z) := by
  intro a x h
  rcases Nat.lt_trichotomy a m.nodes.length with hlt | heq | hgt
  · simp only [List.getElem?_append_left hlt] at h
    exact hwf a x h
  · subst heq
    simp only [getElem?_append_cons, Option.some.injEq] at h
    subst h
    exact hc
  · have hlen : (m.nodes ++ [(⟨c, l⟩ : Cell)]).length ≤ a := by simp; omega
    simp only [List.getElem?_eq_none hlen] at h
    exact absurd h (by simp)

theorem Mem.lookup_marker_ptr (m : Mem Z) (f b : Nat) :
    m.lookup f (Ctx.ptr b) Key.loggerKey = some (Val.ptr b) := by
  cases f <;> simp [Mem.lookup, Ctx.lookup]

/-- Every derivation from an allocated bound node returns, and all it does to
the store is to append one struct around the node and at most one logger. -/
theorem Derivation.run_shape (m : Mem Z) (b : Nat) (cell : Cell) (L : Z.Logger)
    (d : Derivation Z) (hb : m.nodes[b]? = some cell)
    (hL : m.loggers[cell.Logger]? = some L) :
    ∃ l1 ls, d.run m b
      = some (⟨m.nodes ++ [⟨Ctx.ptr b, l1⟩], m.loggers ++ ls, m.baseLogger⟩,
          m.nodes.length) := by
  cases d with
  | With fields =>
    exact ⟨m.loggers.length, [Z.With L fields], by simp [Derivation.run, loggerCtx.With, hb, Mem.zapWith, hL, Mem.new]⟩
  | WithOptionsMethod options =>
    exact ⟨m.loggers.length, [Z.WithOptions L options], by
      simp [Derivation.run, loggerCtx.WithOptions, hb, Mem.zapWithOptions, hL, Mem.new]⟩
  | WithFields fields =>
    exact ⟨m.loggers.length, [Z.With L fields], by
      simp [Derivation.run, store.WithFields, Mem.Value, Mem.lookup_marker_ptr, hb,
        Mem.zapWith, hL, Mem.new]⟩
  | WithOptions options =>
    exact ⟨m.loggers.length, [Z.WithOptions L options], by
      simp [Derivation.run, store.WithOptions, Mem.Value, Mem.lookup_marker_ptr, hb,
        Mem.zapWithOptions, hL, Mem.new]⟩
  | WithLogger logger =>
    exact ⟨logger, [], by simp [Derivation.run, store.WithLogger, Mem.new]⟩


end store

/-! ## The claims -/

/-- C1. `Logger` is the identity on every context that satisfies
`LoggerContext` (the result is the argument itself, not a wrapper around it),
and resolving twice is resolving once. -/
theorem Logger_identity_idempotent (b p : Ctx Z) (hb : b.isLoggerContext = true) :
    Logger b = b ∧ Logger (Logger p) = Logger p :=
  ⟨Logger_of_isLoggerContext hb, Logger_of_isLoggerContext (isLoggerContext_Logger p)⟩

theorem Logger_identity_idempotent_witness :
    (Background : Ctx Z0).isLoggerContext = true ∧
    (Logger (Background : Ctx Z0) = Background ∧
      Logger (Logger (context.TODO : Ctx Z0)) = Logger context.TODO) :=
  ⟨rfl, Logger_identity_idempotent Background context.TODO rfl⟩

/-- C2. When `p` does not itself satisfy `LoggerContext` and is derived by
plain derivations from a bound node with logger `L`, `Logger p` is a new bound
node around `p` with logger `L`, and every lookup other than the marker's
answers as `p` does. -/
theorem Logger_inherits_ancestor (q p : Ctx Z) (L : Z.Logger)
    (hd : Derived (Ctx.loggerCtx q L) p) (hp : p.isLoggerContext = false) :
    Logger p = Ctx.loggerCtx p L ∧
    (Logger p).asLoggerCtx = some ⟨p, L⟩ ∧
    ∀ k, k ≠ Key.loggerKey → (Logger p).Value k = p.Value k := by
  have h := Logger_of_lookup_some hp (lookup_of_Derived_loggerCtx hd)
  simp only at h
  refine ⟨h, ?_, ?_⟩
  · rw [h]; rfl
  · intro k hk
    rw [h, Value_loggerCtx_other p L hk]

theorem Logger_inherits_ancestor_witness :
    Logger (Ctx.valueCtx (Ctx.cancelCtx
        (Ctx.loggerCtx (Ctx.valueCtx (Ctx.emptyCtx false) (Key.user 1) (Val.user 10))
          (true, [4])) 0) (Key.user 2) (Val.user 20) : Ctx Z0)
      = Ctx.loggerCtx (Ctx.valueCtx (Ctx.cancelCtx
        (Ctx.loggerCtx (Ctx.valueCtx (Ctx.emptyCtx false) (Key.user 1) (Val.user 10))
          (true, [4])) 0) (Key.user 2) (Val.user 20)) (true, [4]) :=
  (Logger_inherits_ancestor (Z := Z0) _ _ _
    (Derived.value 2 (Val.user 20) (Derived.cancel 0 Derived.refl)) rfl).1

/-- C3, as amended.  For a context built from `context.Background()` or
`context.TODO()` by plain derivations only, `Logger p` is a bound node around
`p` whose logger is `baseLogger`, which is `zap.NewNop()`, and a logging call
through it is that call on the no-op logger.  With zap as documented such a
call writes nothing; it does not raise at `Debug`, `Info`, `Warn`, `Error` and
`DPanic`, and it raises at `Panic` and `Fatal`. -/
theorem Logger_default (t : Bool) (p : Ctx Z) (hd : Derived (Ctx.emptyCtx t) p) :
    Logger p = Ctx.loggerCtx p (baseLogger Z) ∧
    (Logger p).asLoggerCtx = some ⟨p, Z.NewNop⟩ ∧
    (∀ m msg fs, (Logger p).asLoggerCtx.map (fun c => c.Log m msg fs)
      = some (Z.Log m Z.NewNop msg fs)) ∧
    (∀ pz : Ctx zap.lib, Derived (Ctx.emptyCtx t) pz → ∀ m msg fs,
      (Logger pz).asLoggerCtx.map (fun c => c.Log m msg fs)
        = some ⟨[], decide (m = ZapLogger.Panic ∨ m = ZapLogger.Fatal)⟩) := by
  have h := Logger_of_lookup_none (isLoggerContext_of_Derived_root hd)
    (lookup_of_Derived_root hd)
  refine ⟨h, ?_, ?_, ?_⟩
  · rw [h]; rfl
  · intro m msg fs; rw [h]; rfl
  · intro pz hz m msg fs
    rw [Logger_of_lookup_none (isLoggerContext_of_Derived_root hz)
      (lookup_of_Derived_root hz)]
    simp [Ctx.asLoggerCtx, loggerCtx.Log, baseLogger]

theorem Logger_default_witness :
    (Background : Ctx zap.lib) = Ctx.loggerCtx (Ctx.emptyCtx false) zap.lib.NewNop ∧
    (TODO : Ctx zap.lib) = Ctx.loggerCtx (Ctx.emptyCtx true) zap.lib.NewNop ∧
    (Logger (Ctx.cancelCtx (Ctx.emptyCtx false) 1 : Ctx zap.lib)).asLoggerCtx.map
        (fun c => c.Log ZapLogger.Error "m" [("k", "v")]) = some ⟨[], false⟩ :=
  ⟨(Logger_default false (context.Background : Ctx zap.lib) Derived.refl).1,
   (Logger_default true (context.TODO : Ctx zap.lib) Derived.refl).1,
   (Logger_default false (context.Background : Ctx zap.lib) Derived.refl).2.2.2
     (Ctx.cancelCtx (Ctx.emptyCtx false) 1) (Derived.cancel 1 Derived.refl)
     ZapLogger.Error "m" [("k", "v")]⟩

/-- C3, as stated, fails at the levels `Panic` and `Fatal`: through
`Background()`, whose logger is the no-op logger, a `Panic` call and a `Fatal`
call write nothing and raise. -/
theorem Logger_default_counterexample :
    (Background : Ctx zap.lib).asLoggerCtx.map loggerCtx.Logger = some zap.lib.NewNop ∧
    (Background : Ctx zap.lib).asLoggerCtx.map
        (fun c => c.Log ZapLogger.Panic "m" []) = some ⟨[], true⟩ ∧
    (Background : Ctx zap.lib).asLoggerCtx.map
        (fun c => c.Log ZapLogger.Fatal "m" []) = some ⟨[], true⟩ ∧
    (Background : Ctx zap.lib).asLoggerCtx.map
        (fun c => (c.Log ZapLogger.Panic "m" []).raised) ≠ some false :=
  ⟨rfl, rfl, rfl, by decide⟩

/-- C4. `WithLogger (WithLogger p L1) L2` is a bound node that wraps
`WithLogger p L1` directly and stores `L2`; the marker lookup on it returns the
node itself, `Logger` returns it unchanged, and for every plain derivation `d`
of it both the marker lookup and `Logger d` carry `L2`. -/
theorem WithLogger_overrides (p d : Ctx Z) (L1 L2 : Z.Logger)
    (hd : Derived (WithLogger (WithLogger p L1) L2) d) :
    (WithLogger (WithLogger p L1) L2).asLoggerCtx = some ⟨WithLogger p L1, L2⟩ ∧
    (WithLogger (WithLogger p L1) L2).Value Key.loggerKey
      = Val.ctx (WithLogger (WithLogger p L1) L2) ∧
    Logger (WithLogger (WithLogger p L1) L2) = WithLogger (WithLogger p L1) L2 ∧
    (d.Value Key.loggerKey).asLoggerCtx.map loggerCtx.Logger = some L2 ∧
    (Logger d).asLoggerCtx.map loggerCtx.Logger = some L2 := by
  refine ⟨rfl, Value_loggerCtx_self _ _, Logger_of_isLoggerContext rfl, ?_, ?_⟩
  · rw [lookup_of_Derived_loggerCtx hd]; rfl
  · exact Logger_of_Derived_loggerCtx hd

theorem WithLogger_overrides_witness :
    (Logger (Ctx.cancelCtx (WithLogger (WithLogger (Ctx.emptyCtx false) (true, [1]))
        (true, [2])) 5 : Ctx Z0)).asLoggerCtx.map loggerCtx.Logger = some (true, [2]) :=
  (WithLogger_overrides (Z := Z0) (Ctx.emptyCtx false) _ (true, [1]) (true, [2])
    (Derived.cancel 5 Derived.refl)).2.2.2.2

/-- C5, as amended.  `WithFields p fs` is a new bound node around `p`.  Whenever
`Logger p` is a node of the package, with logger `A`, the new logger is
`A.With(fs)`; the only contexts for which it is not are other implementations
of `LoggerContext`.
Below a bound node with logger `L` the new logger is `L.With(fs)`, and below a
root it is `baseLogger.With(fs)`. -/
theorem WithFields_resolves_as_Logger (p : Ctx Z) (fs : List Z.Field) :
    (∃ A, WithFields p fs = Ctx.loggerCtx p (Z.With A fs)) ∧
    (∀ lc, (Logger p).asLoggerCtx = some lc →
      WithFields p fs = Ctx.loggerCtx p (Z.With lc.Logger fs)) ∧
    ((Logger p).asLoggerCtx = none → ∃ dl v, p = Ctx.foreign true dl v) ∧
    (∀ q L, Derived (Ctx.loggerCtx q L) p →
      WithFields p fs = Ctx.loggerCtx p (Z.With L fs)) ∧
    (∀ t, Derived (Ctx.emptyCtx t) p →
      WithFields p fs = Ctx.loggerCtx p (Z.With (baseLogger Z) fs)) ∧
    ((∀ dl v, p ≠ Ctx.foreign true dl v) →
      ∃ lc, (Logger p).asLoggerCtx = some lc ∧
        WithFields p fs = Ctx.loggerCtx p (Z.With lc.Logger fs)) := by
  refine ⟨?_, fun lc h => WithFields_of_Logger p fs lc h, Logger_not_node p, ?_, ?_, ?_⟩
  · unfold WithFields
    split
    · exact ⟨_, rfl⟩
    · exact ⟨_, rfl⟩
  · intro q L hd
    simp [WithFields, lookup_of_Derived_loggerCtx hd]
  · intro t hd
    simp [WithFields, lookup_of_Derived_root hd]
  · intro hp
    cases h : (Logger p).asLoggerCtx with
    | none =>
      obtain ⟨dl, v, hf⟩ := Logger_not_node p h
      exact absurd hf (hp dl v)
    | some lc => exact ⟨lc, rfl, WithFields_of_Logger p fs lc h⟩

theorem WithFields_resolves_as_Logger_witness :
    WithFields (Ctx.valueCtx (Ctx.loggerCtx (Ctx.emptyCtx false) (true, [1]))
        (Key.user 3) (Val.user 9) : Ctx Z0) [2, 3]
      = Ctx.loggerCtx (Ctx.valueCtx (Ctx.loggerCtx (Ctx.emptyCtx false) (true, [1]))
        (Key.user 3) (Val.user 9)) (true, [1, 2, 3]) :=
  (WithFields_resolves_as_Logger (Z := Z0) _ [2, 3]).2.1 ⟨_, (true, [1])⟩ rfl

/-- C5, as stated, fails on another implementation of `LoggerContext`: `Logger`
returns such a context as it is, with no logger of the package to read, while
`WithFields` wraps it with `baseLogger.With(fs)`. -/
theorem WithFields_resolves_as_Logger_counterexample :
    Logger (Ctx.foreign true none (fun _ => Val.nil) : Ctx Z0)
      = Ctx.foreign true none (fun _ => Val.nil) ∧
    WithFields (Ctx.foreign true none (fun _ => Val.nil) : Ctx Z0) [5]
      = Ctx.loggerCtx (Ctx.foreign true none (fun _ => Val.nil)) (Z0.With (baseLogger Z0) [5]) ∧
    (WithFields (Ctx.foreign true none (fun _ => Val.nil) : Ctx Z0) [5]).asLoggerCtx.map
        loggerCtx.Logger
      ≠ (Logger (Ctx.foreign true none (fun _ => Val.nil) : Ctx Z0)).asLoggerCtx.map
          (fun c => Z0.With c.Logger [5]) :=
  ⟨rfl, rfl, by decide⟩

/-- C6, as amended.  For a context `p` whose resolution `Logger p` is a node of
the package, with logger `A`, the result of `WithFields p f1` is
a node of the package and calling its method `With f2` gives a bound node around
it whose logger is `A.With(f1).With(f2)`: `f1` is merged first, `f2` second.
The resolution is a node of the package for every context that is not another
implementation of `LoggerContext`. -/
theorem WithFields_With_order (p : Ctx Z) (f1 f2 : List Z.Field) (lc : loggerCtx Z)
    (h : (Logger p).asLoggerCtx = some lc) :
    (WithFields p f1).asLoggerCtx = some ⟨p, Z.With lc.Logger f1⟩ ∧
    (WithFields p f1).asLoggerCtx.map (fun c => c.With f2)
      = some (Ctx.loggerCtx (WithFields p f1) (Z.With (Z.With lc.Logger f1) f2)) ∧
    (∀ q : Ctx Z, (∀ dl v, q ≠ Ctx.foreign true dl v) →
      ∃ A, (Logger q).asLoggerCtx = some A) := by
  have hw := WithFields_of_Logger p f1 lc h
  rw [hw]
  refine ⟨rfl, rfl, ?_⟩
  intro q hq
  cases hA : (Logger q).asLoggerCtx with
  | none =>
    obtain ⟨dl, v, hf⟩ := Logger_not_node q hA
    exact absurd hf (hq dl v)
  | some A => exact ⟨A, rfl⟩

theorem WithFields_With_order_witness :
    (WithFields (Ctx.cancelCtx (Ctx.loggerCtx (Ctx.emptyCtx false) (true, [1])) 0 : Ctx Z0)
        [2, 3]).asLoggerCtx.map (fun c => c.With [4])
      = some (Ctx.loggerCtx
          (Ctx.loggerCtx (Ctx.cancelCtx (Ctx.loggerCtx (Ctx.emptyCtx false) (true, [1])) 0)
            (true, [1, 2, 3]))
          (true, [1, 2, 3, 4])) :=
  (WithFields_With_order (Z := Z0)
    (Ctx.cancelCtx (Ctx.loggerCtx (Ctx.emptyCtx false) (true, [1])) 0) [2, 3] [4]
    ⟨_, (true, [1])⟩ rfl).2.1

/-- C6, as stated, fails on another implementation of `LoggerContext`: `Logger`
returns such a context as it is, while the logger of
`WithFields(p, f1).With(f2)` is `baseLogger.With(f1).With(f2)`. -/
theorem WithFields_With_order_counterexample :
    Logger (Ctx.foreign true none (fun _ => Val.nil) : Ctx Z0)
      = Ctx.foreign true none (fun _ => Val.nil) ∧
    (WithFields (Ctx.foreign true none (fun _ => Val.nil) : Ctx Z0) [1]).asLoggerCtx.map
        (fun c => (c.With [2]).asLoggerCtx.map loggerCtx.Logger)
      = some (some (Z0.With (Z0.With (baseLogger Z0) [1]) [2])) ∧
    (WithFields (Ctx.foreign true none (fun _ => Val.nil) : Ctx Z0) [1]).asLoggerCtx.map
        (fun c => (c.With [2]).asLoggerCtx.map loggerCtx.Logger)
      ≠ (Logger (Ctx.foreign true none (fun _ => Val.nil) : Ctx Z0)).asLoggerCtx.map
          (fun c => some (Z0.With (Z0.With c.Logger [1]) [2])) :=
  ⟨rfl, rfl, by decide⟩

/-- C7, as amended.  For a bound node `b` with logger `L`, each of
`WithCancel b`, `WithDeadline b d`, `WithTimeout b t` and, for a key `k` the
library accepts (non-nil, comparable) other than the marker key, `WithValue b k v`
returns a bound node with logger `L` around the context the library derived from
`b`, and `Logger` returns that result unchanged. -/
theorem derived_wrappers_keep_logger (q : Ctx Z) (L : Z.Logger) (id : Nat)
    (d now t : Int) (k : Key) (v : Val Z) (hk : k ≠ Key.loggerKey)
    (hu : k.usable = true) :
    ((WithCancel id (Ctx.loggerCtx q L)).1
        = Ctx.loggerCtx (Ctx.cancelCtx (Ctx.loggerCtx q L) id) L ∧
      Logger (WithCancel id (Ctx.loggerCtx q L)).1 = (WithCancel id (Ctx.loggerCtx q L)).1) ∧
    ((∃ c, Derived (Ctx.loggerCtx q L) c ∧
        (WithDeadline id (Ctx.loggerCtx q L) d).1 = Ctx.loggerCtx c L) ∧
      Logger (WithDeadline id (Ctx.loggerCtx q L) d).1
        = (WithDeadline id (Ctx.loggerCtx q L) d).1) ∧
    ((∃ c, Derived (Ctx.loggerCtx q L) c ∧
        (WithTimeout id now (Ctx.loggerCtx q L) t).1 = Ctx.loggerCtx c L) ∧
      Logger (WithTimeout id now (Ctx.loggerCtx q L) t).1
        = (WithTimeout id now (Ctx.loggerCtx q L) t).1) ∧
    (WithValue (Ctx.loggerCtx q L) k v
        = some (Ctx.loggerCtx (Ctx.valueCtx (Ctx.loggerCtx q L) k v) L) ∧
      Logger (Ctx.loggerCtx (Ctx.valueCtx (Ctx.loggerCtx q L) k v) L)
        = Ctx.loggerCtx (Ctx.valueCtx (Ctx.loggerCtx q L) k v) L) := by
  have hdl : ∀ e : Int, ∃ c, Derived (Ctx.loggerCtx q L) c ∧
      (WithDeadline id (Ctx.loggerCtx q L) e).1 = Ctx.loggerCtx c L := by
    intro e
    unfold WithDeadline context.WithDeadline context.WithCancel
    split
    · split
      · exact ⟨_, Derived.cancel id Derived.refl, by simp [Logger, Ctx.isLoggerContext, Ctx.Value, Val.asLoggerCtx]⟩
      · exact ⟨_, Derived.timer id e Derived.refl, by simp [Logger, Ctx.isLoggerContext, Ctx.Value, Val.asLoggerCtx]⟩
    · exact ⟨_, Derived.timer id e Derived.refl, by simp [Logger, Ctx.isLoggerContext, Ctx.Value, Val.asLoggerCtx]⟩
  refine ⟨⟨?_, ?_⟩, ⟨hdl d, ?_⟩, ⟨hdl (now + t), ?_⟩, ⟨?_, ?_⟩⟩
  · simp [WithCancel, context.WithCancel, Logger, Ctx.isLoggerContext, Ctx.Value,
      Val.asLoggerCtx]
  · exact Logger_of_isLoggerContext
      (isLoggerContext_Logger (context.WithCancel id (Ctx.loggerCtx q L)).1)
  · exact Logger_of_isLoggerContext
      (isLoggerContext_Logger (context.WithDeadline id (Ctx.loggerCtx q L) d).1)
  · exact Logger_of_isLoggerContext
      (isLoggerContext_Logger (context.WithTimeout id now (Ctx.loggerCtx q L) t).1)
  · rw [WithValue_eq_some]
    refine ⟨hu, ?_⟩
    simp [Logger, Ctx.isLoggerContext, Ctx.Value, Val.asLoggerCtx, hk]
  · exact Logger_of_isLoggerContext rfl

theorem derived_wrappers_keep_logger_witness :
    (WithTimeout 1 100 (Ctx.loggerCtx (Ctx.emptyCtx false) (true, [1]) : Ctx Z0) 5).1
      = Ctx.loggerCtx (Ctx.timerCtx (Ctx.loggerCtx (Ctx.emptyCtx false) (true, [1])) 1 105)
          (true, [1]) ∧
    WithValue (Ctx.loggerCtx (Ctx.emptyCtx false) (true, [1]) : Ctx Z0) (Key.user 2)
        (Val.user 3)
      = some (Ctx.loggerCtx (Ctx.valueCtx (Ctx.loggerCtx (Ctx.emptyCtx false) (true, [1]))
          (Key.user 2) (Val.user 3)) (true, [1])) :=
  ⟨rfl, (derived_wrappers_keep_logger (Z := Z0) (Ctx.emptyCtx false) (true, [1]) 1 0 100 5
    (Key.user 2) (Val.user 3) (by decide) rfl).2.2.2.1⟩

/-- C7, as stated, fails on a key the library refuses: the nil key is not the
marker key, and `WithValue b nil v` panics instead of returning a bound node. -/
theorem derived_wrappers_keep_logger_counterexample :
    Key.nil ≠ Key.loggerKey ∧
    WithValue (Ctx.loggerCtx (Ctx.emptyCtx false) (true, [1]) : Ctx Z0) Key.nil (Val.user 3)
      = none :=
  ⟨by decide, rfl⟩

/-- C8. The methods of a bound node `b` use the logger stored at `b` and wrap
`b` itself: `b.With fs` is a bound node around `b` with logger `L.With(fs)`,
`b.WithOptions os` one with logger `L.WithOptions(os)`, whatever lies above `b`;
chaining gives `L.With(a).With(c)`. -/
theorem methods_use_own_logger (b : loggerCtx Z) (fs a c : List Z.Field)
    (os : List Z.Opt) :
    b.With fs = Ctx.loggerCtx (Ctx.loggerCtx b.Context b.Logger) (Z.With b.Logger fs) ∧
    b.WithOptions os
      = Ctx.loggerCtx (Ctx.loggerCtx b.Context b.Logger) (Z.WithOptions b.Logger os) ∧
    (b.With a).asLoggerCtx = some ⟨b.toCtx, Z.With b.Logger a⟩ ∧
    (b.With a).asLoggerCtx.map (fun n => n.With c)
      = some (Ctx.loggerCtx (b.With a) (Z.With (Z.With b.Logger a) c)) :=
  ⟨rfl, rfl, rfl, rfl⟩

/-- C9. The lookup of the marker key on a bound node returns that node itself,
whatever its wrapped parent is, so the logger found by lookup is the one stored
at the node; the lookup of any other key is the wrapped parent's. -/
theorem Value_self_recognition (b : loggerCtx Z) (k : Key) (hk : k ≠ Key.loggerKey) :
    b.Value Key.loggerKey = Val.ctx b.toCtx ∧
    (b.Value Key.loggerKey).asLoggerCtx = some b ∧
    b.Value k = b.Context.Value k ∧
    b.toCtx.Value Key.loggerKey = b.Value Key.loggerKey ∧
    b.toCtx.Value k = b.Value k := by
  refine ⟨by simp [loggerCtx.Value], ?_, by simp [loggerCtx.Value, hk], ?_, ?_⟩
  · simp [loggerCtx.Value, loggerCtx.toCtx, Val.asLoggerCtx]
  · simp [loggerCtx.Value, loggerCtx.toCtx, Ctx.Value]
  · simp [loggerCtx.Value, loggerCtx.toCtx, Ctx.Value, hk]

theorem Value_self_recognition_witness :
    ((⟨Ctx.valueCtx (Ctx.loggerCtx (Ctx.emptyCtx false) (true, [1])) (Key.user 4)
        (Val.user 8), (true, [2])⟩ : loggerCtx Z0).Value Key.loggerKey).asLoggerCtx
      = some ⟨Ctx.valueCtx (Ctx.loggerCtx (Ctx.emptyCtx false) (true, [1])) (Key.user 4)
        (Val.user 8), (true, [2])⟩ ∧
    (⟨Ctx.valueCtx (Ctx.loggerCtx (Ctx.emptyCtx false) (true, [1])) (Key.user 4)
        (Val.user 8), (true, [2])⟩ : loggerCtx Z0).Value (Key.user 4) = Val.user 8 :=
  ⟨(Value_self_recognition (Z := Z0) _ (Key.user 4) (by decide)).2.1,
   (Value_self_recognition (Z := Z0) _ (Key.user 4) (by decide)).2.2.1⟩

/-- C10, as amended.  A logging call on a bound node is that call on the
stored logger, with the same message and fields.  For `root = Background()`,
`c1 = WithFields(root, f)` and `(c2, cancel) = WithTimeout(c1, t)`, `c2` is a
bound node whose logger is `baseLogger.With(f)`, so an `Info` call on `c2` is
the `Info` call on `baseLogger.With(f)`; with zap as documented that logger is
the no-op logger and the call writes no record.  When the root instead carries
a logger with a writing core enabled at `Info`, the `Info` call on `c2` writes
one record, which holds the core's fields, then `f`, then the call's fields. -/
theorem Log_forwarded (m : ZapLogger) (c : loggerCtx Z) (msg : String)
    (fs : List Z.Field) (f : Z.Field) (id : Nat) (now t : Int)
    (root : Ctx zap.lib) (core : zap.Core) (dev : Bool) (g : String × String)
    (gs : List (String × String)) (hen : ZapLogger.Info ∈ core.enabled) :
    c.Log m msg fs = Z.Log m c.Logger msg fs ∧
    (WithTimeout id now (WithFields (Background : Ctx Z) [f]) t).1.asLoggerCtx
      = some ⟨Ctx.timerCtx (WithFields (Background : Ctx Z) [f]) id (now + t),
          Z.With (baseLogger Z) [f]⟩ ∧
    (WithTimeout id now (WithFields (Background : Ctx Z) [f]) t).1.asLoggerCtx.map
        (fun c2 => c2.Log ZapLogger.Info msg fs)
      = some (Z.Log ZapLogger.Info (Z.With Z.NewNop [f]) msg fs) ∧
    (WithTimeout id now (WithFields (Background : Ctx zap.lib) [g]) t).1.asLoggerCtx.map
        (fun c2 => c2.Log ZapLogger.Info msg gs)
      = some ⟨[], false⟩ ∧
    (WithTimeout id now (WithFields (WithLogger root ⟨some core, dev⟩) [g]) t).1.asLoggerCtx.map
        (fun c2 => c2.Log ZapLogger.Info msg gs)
      = some ⟨[(ZapLogger.Info, msg, core.fields ++ [g] ++ gs)], false⟩ := by
  refine ⟨rfl, rfl, rfl, rfl, ?_⟩
  have h1 : WithFields (WithLogger root (⟨some core, dev⟩ : zap.Logger)) [g]
      = Ctx.loggerCtx (Ctx.loggerCtx root ⟨some core, dev⟩)
          (⟨some ⟨core.enabled, core.fields ++ [g]⟩, dev⟩ : zap.Logger) := by
    simp [WithFields, WithLogger, Ctx.Value, Val.asLoggerCtx]
  rw [h1]
  rcases WithTimeout_loggerCtx (Z := zap.lib) (Ctx.loggerCtx root ⟨some core, dev⟩)
      ⟨some ⟨core.enabled, core.fields ++ [g]⟩, dev⟩ id now t with h | h <;>
    rw [h] <;> simp [Ctx.asLoggerCtx, loggerCtx.Log, hen]

theorem Log_forwarded_witness :
    (WithTimeout 1 0 (WithFields (WithLogger (Ctx.emptyCtx false : Ctx zap.lib)
        ⟨some ⟨[ZapLogger.Info, ZapLogger.Error], [("svc", "api")]⟩, false⟩)
        [("request_id", "abc")]) 5).1.asLoggerCtx.map
        (fun c2 => c2.Log ZapLogger.Info "hello" [("n", "1")])
      = some ⟨[(ZapLogger.Info, "hello",
          [("svc", "api"), ("request_id", "abc"), ("n", "1")])], false⟩ :=
  (Log_forwarded (Z := Z0) ZapLogger.Info ⟨Ctx.emptyCtx false, (true, [])⟩ "hello" [] 0 1 0 5
    (Ctx.emptyCtx false) ⟨[ZapLogger.Info, ZapLogger.Error], [("svc", "api")]⟩ false
    ("request_id", "abc") [("n", "1")] (by decide)).2.2.2.2

/-- C10, as stated, fails in its scenario: with `root = Background()` the logger
of `c2` is the no-op logger, in which the merged field is not kept, and the
`Info` call on `c2` writes no record at all. -/
theorem Log_forwarded_counterexample :
    (WithTimeout 1 0 (WithFields (Background : Ctx zap.lib) [("request_id", "abc")])
        5).1.asLoggerCtx.map loggerCtx.Logger = some zap.lib.NewNop ∧
    (WithTimeout 1 0 (WithFields (Background : Ctx zap.lib) [("request_id", "abc")])
        5).1.asLoggerCtx.map (fun c2 => (c2.Log ZapLogger.Info "hello" []).written)
      = some [] :=
  ⟨rfl, rfl⟩

/-- C11. On a node `b` of the package the free functions are the methods:
`WithFields b fs` is `b.With fs`, a bound node around `b` with logger
`b.Logger.With(fs)`, and `WithOptions b os` is `b.WithOptions os`, a bound node
around `b` with logger `b.Logger.WithOptions(os)`; the marker lookup made by the
free functions finds `b` itself. -/
theorem free_functions_are_methods (b : loggerCtx Z) (fs : List Z.Field)
    (os : List Z.Opt) :
    (b.toCtx.Value Key.loggerKey).asLoggerCtx = some b ∧
    WithFields b.toCtx fs = b.With fs ∧
    WithFields b.toCtx fs = Ctx.loggerCtx b.toCtx (Z.With b.Logger fs) ∧
    WithOptions b.toCtx os = b.WithOptions os ∧
    WithOptions b.toCtx os = Ctx.loggerCtx b.toCtx (Z.WithOptions b.Logger os) := by
  have h : (b.toCtx.Value Key.loggerKey).asLoggerCtx = some b := by
    simp [loggerCtx.toCtx, Ctx.Value, Val.asLoggerCtx]
  refine ⟨h, ?_, ?_, ?_, ?_⟩ <;>
    simp [WithFields, WithOptions, h, loggerCtx.With, loggerCtx.WithOptions]

/-- C12, as amended.  `WithOptions p os` is a new bound node around `p` built as
`WithFields` builds its own, from the same ambient logger `A`.  Whenever
`Logger p` is a node of the package, `A` is its logger; below a bound node with
logger `L` the new logger is `L.WithOptions(os)`, and below a root it is
`baseLogger.WithOptions(os)`. -/
theorem WithOptions_resolves_as_Logger (p : Ctx Z) (os : List Z.Opt)
    (fs : List Z.Field) :
    (∃ A, WithOptions p os = Ctx.loggerCtx p (Z.WithOptions A os) ∧
      WithFields p fs = Ctx.loggerCtx p (Z.With A fs)) ∧
    (∀ lc, (Logger p).asLoggerCtx = some lc →
      WithOptions p os = Ctx.loggerCtx p (Z.WithOptions lc.Logger os)) ∧
    ((Logger p).asLoggerCtx = none → ∃ dl v, p = Ctx.foreign true dl v) ∧
    (∀ q L, Derived (Ctx.loggerCtx q L) p →
      WithOptions p os = Ctx.loggerCtx p (Z.WithOptions L os)) ∧
    (∀ t, Derived (Ctx.emptyCtx t) p →
      WithOptions p os = Ctx.loggerCtx p (Z.WithOptions (baseLogger Z) os)) ∧
    ((∀ dl v, p ≠ Ctx.foreign true dl v) →
      ∃ lc, (Logger p).asLoggerCtx = some lc ∧
        WithOptions p os = Ctx.loggerCtx p (Z.WithOptions lc.Logger os)) := by
  refine ⟨?_, fun lc h => WithOptions_of_Logger p os lc h, Logger_not_node p, ?_, ?_, ?_⟩
  · unfold WithOptions WithFields
    split
    · exact ⟨_, rfl, rfl⟩
    · exact ⟨_, rfl, rfl⟩
  · intro q L hd
    simp [WithOptions, lookup_of_Derived_loggerCtx hd]
  · intro t hd
    simp [WithOptions, lookup_of_Derived_root hd]
  · intro hp
    cases h : (Logger p).asLoggerCtx with
    | none =>
      obtain ⟨dl, v, hf⟩ := Logger_not_node p h
      exact absurd hf (hp dl v)
    | some lc => exact ⟨lc, rfl, WithOptions_of_Logger p os lc h⟩

theorem WithOptions_resolves_as_Logger_witness :
    WithOptions (Ctx.valueCtx (Ctx.loggerCtx (Ctx.emptyCtx false) (false, [1]))
        (Key.user 3) (Val.user 9) : Ctx Z0) [true]
      = Ctx.loggerCtx (Ctx.valueCtx (Ctx.loggerCtx (Ctx.emptyCtx false) (false, [1]))
        (Key.user 3) (Val.user 9)) (true, [1]) :=
  (WithOptions_resolves_as_Logger (Z := Z0) _ [true] []).2.1 ⟨_, (false, [1])⟩ rfl

/-- C12, as stated, fails on another implementation of `LoggerContext`:
`Logger` returns such a context as it is, with no logger of the package to read,
while `WithOptions` wraps it with `baseLogger.WithOptions(os)`. -/
theorem WithOptions_resolves_as_Logger_counterexample :
    Logger (Ctx.foreign true none (fun _ => Val.nil) : Ctx Z0)
      = Ctx.foreign true none (fun _ => Val.nil) ∧
    WithOptions (Ctx.foreign true none (fun _ => Val.nil) : Ctx Z0) [true]
      = Ctx.loggerCtx (Ctx.foreign true none (fun _ => Val.nil))
          (Z0.WithOptions (baseLogger Z0) [true]) ∧
    (WithOptions (Ctx.foreign true none (fun _ => Val.nil) : Ctx Z0) [true]).asLoggerCtx.map
        loggerCtx.Logger
      ≠ (Logger (Ctx.foreign true none (fun _ => Val.nil) : Ctx Z0)).asLoggerCtx.map
          (fun c => Z0.WithOptions c.Logger [true]) :=
  ⟨rfl, rfl, by decide⟩

/-- C13, as amended.  Let `b` be a bound node that is not cancelled and `id` a
fresh allocation.  After `(c, cancel) = WithCancel(b)` and `cancel()`, `c`
reports `Canceled` and `b` still reports nothing.  After
`(c, cancel) = WithTimeout(b, t)`, made at clock reading `now`, and `cancel()`,
`c` reports an error and `b` still reports nothing; the error is `Canceled` when
the deadline `now + t` is still ahead at the call, and `DeadlineExceeded` when it
has passed and `b` has no deadline of its own. -/
theorem cancel_confined_to_child (w : World Z) (q : Ctx Z) (L : Z.Logger) (id : Nat)
    (now t : Int) (hb : (Ctx.loggerCtx q L).Err w = none) (hw : w.err id = none)
    (hid : (Ctx.loggerCtx q L).uses id = false) :
    ((WithCancel id (Ctx.loggerCtx q L)).1.Err
        ((WithCancel id (Ctx.loggerCtx q L)).2.call (WithCancel id (Ctx.loggerCtx q L)).1 w)
        = some Canceled ∧
      (Ctx.loggerCtx q L).Err
        ((WithCancel id (Ctx.loggerCtx q L)).2.call (WithCancel id (Ctx.loggerCtx q L)).1 w)
        = none) ∧
    (((WithTimeout id now (Ctx.loggerCtx q L) t).1.Err
        ((WithTimeout id now (Ctx.loggerCtx q L) t).2.call
          (WithTimeout id now (Ctx.loggerCtx q L) t).1 w)).isSome = true ∧
      (Ctx.loggerCtx q L).Err
        ((WithTimeout id now (Ctx.loggerCtx q L) t).2.call
          (WithTimeout id now (Ctx.loggerCtx q L) t).1 w) = none ∧
      (w.now < now + t →
        (WithTimeout id now (Ctx.loggerCtx q L) t).1.Err
          ((WithTimeout id now (Ctx.loggerCtx q L) t).2.call
            (WithTimeout id now (Ctx.loggerCtx q L) t).1 w) = some Canceled) ∧
      (now + t ≤ w.now → (Ctx.loggerCtx q L).Deadline = none →
        (WithTimeout id now (Ctx.loggerCtx q L) t).1.Err
          ((WithTimeout id now (Ctx.loggerCtx q L) t).2.call
            (WithTimeout id now (Ctx.loggerCtx q L) t).1 w) = some DeadlineExceeded)) := by
  have hc : WithCancel id (Ctx.loggerCtx q L)
      = (Ctx.loggerCtx (Ctx.cancelCtx (Ctx.loggerCtx q L) id) L, ⟨id⟩) := by
    simp [WithCancel, context.WithCancel, Logger, Ctx.isLoggerContext, Ctx.Value,
      Val.asLoggerCtx]
  have h1 := call_cancelCtx w (Ctx.loggerCtx q L) L id hb hw hid
  have h2 := call_timerCtx w (Ctx.loggerCtx q L) L id (now + t) hb hw hid
  refine ⟨?_, ?_⟩
  · rw [hc]; exact h1
  · refine ⟨?_, ?_, ?_, ?_⟩
    · rcases WithTimeout_loggerCtx q L id now t with h | h <;> rw [h]
      · simp [h1.1]
      · simp [h2.1]
    · rcases WithTimeout_loggerCtx q L id now t with h | h <;> rw [h]
      · exact h1.2
      · exact h2.2
    · intro ht
      rcases WithTimeout_loggerCtx q L id now t with h | h <;> rw [h]
      · exact h1.1
      · rw [h2.1, if_neg (by omega)]; rfl
    · intro ht hdl
      rw [WithTimeout_loggerCtx_timer q L id now t hdl, h2.1, if_pos ht]; rfl

theorem cancel_confined_to_child_witness :
    (WithTimeout 7 100 (Ctx.loggerCtx (Ctx.emptyCtx false) (true, [1]) : Ctx Z0) 5).1.Err
        ((WithTimeout 7 100 (Ctx.loggerCtx (Ctx.emptyCtx false) (true, [1]) : Ctx Z0) 5).2.call
          (WithTimeout 7 100 (Ctx.loggerCtx (Ctx.emptyCtx false) (true, [1]) : Ctx Z0) 5).1
          ⟨102, fun _ => none, fun _ => none⟩) = some Canceled ∧
    (Ctx.loggerCtx (Ctx.emptyCtx false) (true, [1]) : Ctx Z0).Err
        ((WithCancel 7 (Ctx.loggerCtx (Ctx.emptyCtx false) (true, [1]) : Ctx Z0)).2.call
          (WithCancel 7 (Ctx.loggerCtx (Ctx.emptyCtx false) (true, [1]) : Ctx Z0)).1
          ⟨102, fun _ => none, fun _ => none⟩) = none :=
  ⟨(cancel_confined_to_child (Z := Z0) ⟨102, fun _ => none, fun _ => none⟩
      (Ctx.emptyCtx false) (true, [1]) 7 100 5 rfl rfl rfl).2.2.2.1 (by decide),
   (cancel_confined_to_child (Z := Z0) ⟨102, fun _ => none, fun _ => none⟩
      (Ctx.emptyCtx false) (true, [1]) 7 100 5 rfl rfl rfl).1.2⟩

/-- C13, as stated, fails for a timeout that is not positive: below the
uncancelled `Background()`, with a fresh allocation, `WithTimeout(b, 0)` followed
by `cancel()` leaves the child reporting `DeadlineExceeded`, not `Canceled`. -/
theorem cancel_confined_to_child_counterexample :
    (Background : Ctx Z0).Err ⟨0, fun _ => none, fun _ => none⟩ = none ∧
    (Background : Ctx Z0).uses 0 = false ∧
    (WithTimeout 0 0 (Background : Ctx Z0) 0).1.Err
        ((WithTimeout 0 0 (Background : Ctx Z0) 0).2.call
          (WithTimeout 0 0 (Background : Ctx Z0) 0).1 ⟨0, fun _ => none, fun _ => none⟩)
      = some DeadlineExceeded ∧
    (WithTimeout 0 0 (Background : Ctx Z0) 0).1.Err
        ((WithTimeout 0 0 (Background : Ctx Z0) 0).2.call
          (WithTimeout 0 0 (Background : Ctx Z0) 0).1 ⟨0, fun _ => none, fun _ => none⟩)
      ≠ some Canceled :=
  ⟨rfl, rfl, rfl, by decide⟩

/-- C14, as amended.  For a key `k` the library accepts (non-nil, comparable)
other than the marker key, `WithValue p k v` returns a bound node around the
library's value node; its lookup of `k` is `v` and its lookup of any key other
than `k` and the marker key is the lookup of `p`. -/
theorem WithValue_lookup (p : Ctx Z) (k k2 : Key) (v : Val Z)
    (hk : k ≠ Key.loggerKey) (hu : k.usable = true) (h2 : k2 ≠ k)
    (hm : k2 ≠ Key.loggerKey) :
    ∃ r, WithValue p k v = some r ∧
      r.isLoggerContext = true ∧
      (∃ A, r = Ctx.loggerCtx (Ctx.valueCtx p k v) A) ∧
      r.Value k = v ∧
      r.Value k2 = p.Value k2 := by
  have hA : ∃ A, Logger (Ctx.valueCtx p k v) = Ctx.loggerCtx (Ctx.valueCtx p k v) A := by
    unfold Logger
    rw [if_neg (by simp [Ctx.isLoggerContext])]
    split
    · exact ⟨_, rfl⟩
    · exact ⟨_, rfl⟩
  refine ⟨Logger (Ctx.valueCtx p k v), WithValue_eq_some.mpr ⟨hu, rfl⟩,
    isLoggerContext_Logger _, hA, ?_, ?_⟩
  · obtain ⟨A, h⟩ := hA
    rw [h]
    simp [Ctx.Value, hk]
  · obtain ⟨A, h⟩ := hA
    rw [h]
    simp [Ctx.Value, hm, Ne.symm h2]

theorem WithValue_lookup_witness :
    ∃ r, WithValue (Ctx.valueCtx (Ctx.emptyCtx false) (Key.user 1) (Val.user 10) : Ctx Z0)
        (Key.user 2) (Val.user 20) = some r ∧
      r.isLoggerContext = true ∧
      (∃ A, r = Ctx.loggerCtx (Ctx.valueCtx
        (Ctx.valueCtx (Ctx.emptyCtx false) (Key.user 1) (Val.user 10))
        (Key.user 2) (Val.user 20)) A) ∧
      r.Value (Key.user 2) = Val.user 20 ∧
      r.Value (Key.user 1) = (Ctx.valueCtx (Ctx.emptyCtx false) (Key.user 1)
        (Val.user 10) : Ctx Z0).Value (Key.user 1) :=
  WithValue_lookup (Z := Z0) (Ctx.valueCtx (Ctx.emptyCtx false) (Key.user 1) (Val.user 10))
    (Key.user 2) (Key.user 1) (Val.user 20) (by decide) rfl (by decide) (by decide)

/-- C14, as stated, fails on a key the library refuses: a key that is not
comparable is not the marker key, and `WithValue p k v` panics on it instead of
returning a bound node. -/
theorem WithValue_lookup_counterexample :
    Key.uncomparable 0 ≠ Key.loggerKey ∧
    WithValue (Ctx.emptyCtx false : Ctx Z0) (Key.uncomparable 0) (Val.user 1) = none ∧
    WithValue (Ctx.emptyCtx false : Ctx Z0) Key.nil (Val.user 1) = none :=
  ⟨by decide, rfl, rfl⟩

/-- C15. Below a bound node with logger `L`, a value that is not a bound node
stored under the marker key hides that node: for the value node and every plain
derivation `d` of it, `Logger d` is a bound node around `d` with `baseLogger`,
and `WithFields` and `WithOptions` start from `baseLogger`; so the logger found
is not `L` unless `L` is `baseLogger`.  Under any other key the same value
leaves `L` in place. -/
theorem marker_value_hides_logger (q p d : Ctx Z) (L : Z.Logger) (v : Val Z)
    (fs : List Z.Field) (os : List Z.Opt) (n : Nat)
    (hv : v.asLoggerCtx = none)
    (hp : context.WithValue (Ctx.loggerCtx q L) Key.loggerKey v = some p)
    (hd : Derived p d) :
    Logger d = Ctx.loggerCtx d (baseLogger Z) ∧
    WithFields d fs = Ctx.loggerCtx d (Z.With (baseLogger Z) fs) ∧
    WithOptions d os = Ctx.loggerCtx d (Z.WithOptions (baseLogger Z) os) ∧
    (L ≠ baseLogger Z → (Logger d).asLoggerCtx.map loggerCtx.Logger ≠ some L) ∧
    (context.WithValue (Ctx.loggerCtx q L) (Key.user n) v).map Logger
      = some (Ctx.loggerCtx (Ctx.valueCtx (Ctx.loggerCtx q L) (Key.user n) v) L) := by
  rw [context.WithValue_returns] at hp
  obtain ⟨-, rfl⟩ := hp
  have hlk : (d.Value Key.loggerKey).asLoggerCtx = none := by
    rw [lookup_of_Derived_marker hd]; exact hv
  have hlc : d.isLoggerContext = false :=
    isLoggerContext_of_Derived
      (show (Ctx.valueCtx (Ctx.loggerCtx q L) Key.loggerKey v).isLoggerContext = false
        from rfl) hd
  have hL : Logger d = Ctx.loggerCtx d (baseLogger Z) := Logger_of_lookup_none hlc hlk
  refine ⟨hL, ?_, ?_, ?_, ?_⟩
  · simp [WithFields, hlk]
  · simp [WithOptions, hlk]
  · intro hne h
    rw [hL] at h
    simp only [Ctx.asLoggerCtx, Option.map_some', Option.some.injEq] at h
    exact hne h.symm
  · simp [context.WithValue, Key.usable, Logger, Ctx.isLoggerContext, Ctx.Value,
      Val.asLoggerCtx]

theorem marker_value_hides_logger_witness :
    Logger (Ctx.cancelCtx (Ctx.valueCtx
        (Ctx.loggerCtx (Ctx.emptyCtx false) (true, [1]) : Ctx Z0) Key.loggerKey (Val.user 5)) 3)
      = Ctx.loggerCtx (Ctx.cancelCtx (Ctx.valueCtx
        (Ctx.loggerCtx (Ctx.emptyCtx false) (true, [1])) Key.loggerKey (Val.user 5)) 3)
        (false, []) ∧
    (Logger (Ctx.cancelCtx (Ctx.valueCtx
        (Ctx.loggerCtx (Ctx.emptyCtx false) (true, [1]) : Ctx Z0) Key.loggerKey (Val.user 5))
        3)).asLoggerCtx.map loggerCtx.Logger ≠ some (true, [1]) :=
  ⟨(marker_value_hides_logger (Z := Z0) (Ctx.emptyCtx false) _ _ (true, [1]) (Val.user 5)
      [] [] 0 rfl rfl (Derived.cancel 3 Derived.refl)).1,
   (marker_value_hides_logger (Z := Z0) (Ctx.emptyCtx false) _ _ (true, [1]) (Val.user 5)
      [] [] 0 rfl rfl (Derived.cancel 3 Derived.refl)).2.2.2.1 (by decide)⟩

/-- C16.  In a store built by allocation, let `b` be the address of a bound
node whose logger has state `L`.  Each derivation from `b` (`b.With`,
`b.WithOptions`, `WithFields(b, _)`, `WithOptions(b, _)`, `WithLogger(b, _)`)
returns and leaves every struct and every logger of the store as it was, and
the store well-formed: `b` has the same fields, its logger the state `L`, and
each lookup on `b` the same answer.  The child wraps `b`.  A sibling derived afterwards as `b.With f2` wraps
`b` with a new logger of state `L.With(f2)`, and leaves `b` and the first child
as they were. -/
theorem derivation_keeps_parent (m : store.Mem Z) (b : Nat) (cell : store.Cell)
    (L : Z.Logger) (d : store.Derivation Z) (f2 : List Z.Field) (k : Key)
    (hwf : m.wf) (hb : m.nodes[b]? = some cell)
    (hL : m.loggers[cell.Logger]? = some L) :
    ∃ m1 c1, d.run m b = some (m1, c1) ∧
      (∀ (a : Nat) (x : store.Cell), m.nodes[a]? = some x → m1.nodes[a]? = some x) ∧
      (∀ (l : Nat) (s : Z.Logger), m.loggers[l]? = some s → m1.loggers[l]? = some s) ∧
      m1.baseLogger = m.baseLogger ∧
      m1.wf ∧
      m1.nodes[b]? = some cell ∧
      m1.loggers[cell.Logger]? = some L ∧
      (∃ v, m.Value (store.Ctx.ptr b) k = some v ∧ m1.Value (store.Ctx.ptr b) k = some v) ∧
      (∃ l1, m1.nodes[c1]? = some ⟨store.Ctx.ptr b, l1⟩) ∧
      ∃ m2 c2 l2, store.loggerCtx.With m1 b f2 = some (m2, c2) ∧
        m2.nodes[c2]? = some ⟨store.Ctx.ptr b, l2⟩ ∧
        m2.loggers[l2]? = some (Z.With L f2) ∧
        m2.nodes[b]? = some cell ∧
        m2.loggers[cell.Logger]? = some L ∧
        m2.nodes[c1]? = m1.nodes[c1]? := by
  obtain ⟨l1, ls, hrun⟩ := store.Derivation.run_shape m b cell L d hb hL
  have hbl : b < m.nodes.length := by
    rcases Nat.lt_or_ge b m.nodes.length with h | h
    · exact h
    · rw [List.getElem?_eq_none h] at hb; simp at hb
  have hnodes : ∀ (a : Nat) (x : store.Cell) (ns : List store.Cell),
      m.nodes[a]? = some x → (m.nodes ++ ns)[a]? = some x := by
    intro a x ns h
    have hlt : a < m.nodes.length := by
      rcases Nat.lt_or_ge a m.nodes.length with h1 | h1
      · exact h1
      · rw [List.getElem?_eq_none h1] at h; simp at h
    rw [List.getElem?_append_left hlt]; exact h
  have hlogs : ∀ (l : Nat) (s : Z.Logger) (xs : List Z.Logger),
      m.loggers[l]? = some s → (m.loggers ++ xs)[l]? = some s := by
    intro l s xs h
    have hlt : l < m.loggers.length := by
      rcases Nat.lt_or_ge l m.loggers.length with h1 | h1
      · exact h1
      · rw [List.getElem?_eq_none h1] at h; simp at h
    rw [List.getElem?_append_left hlt]; exact h
  refine ⟨_, _, hrun, fun a x h => hnodes a x _ h, fun l s h => hlogs l s _ h, rfl,
    store.Mem.wf_new m hwf _ _ _ _ hbl,
    hnodes b cell _ hb, hlogs _ L _ hL, ?_,
    ⟨l1, store.getElem?_append_cons _ _ []⟩, ?_⟩
  · have h := store.Mem.lookup_extends m
      ⟨m.nodes ++ [⟨store.Ctx.ptr b, l1⟩], m.loggers ++ ls, m.baseLogger⟩ k
      hwf (fun a x h => hnodes a x _ h)
      m.nodes.length (m.nodes ++ [(⟨store.Ctx.ptr b, l1⟩ : store.Cell)]).length (b + 1)
      (store.Ctx.ptr b)
      (by simp [store.Ctx.within]) (by omega) (by simp; omega) (by omega)
    exact h
  · refine ⟨⟨(m.nodes ++ [(⟨store.Ctx.ptr b, l1⟩ : store.Cell)])
          ++ [(⟨store.Ctx.ptr b, (m.loggers ++ ls).length⟩ : store.Cell)],
        (m.loggers ++ ls) ++ [Z.With L f2], m.baseLogger⟩,
      (m.nodes ++ [(⟨store.Ctx.ptr b, l1⟩ : store.Cell)]).length,
      (m.loggers ++ ls).length, ?_, ?_, ?_, ?_, ?_, ?_⟩
    · simp [store.loggerCtx.With, hnodes b cell _ hb, store.Mem.zapWith, hlogs _ L _ hL,
        store.Mem.new]
    · exact store.getElem?_append_cons _ _ []
    · exact store.getElem?_append_cons _ _ []
    · simp only [List.append_assoc]
      exact hnodes b cell _ hb
    · simp only [List.append_assoc]
      exact hlogs _ L _ hL
    · show ((m.nodes ++ [_]) ++ [_])[m.nodes.length]? = (m.nodes ++ [_])[m.nodes.length]?
      rw [List.append_assoc, store.getElem?_append_cons m.nodes _ []]
      exact store.getElem?_append_cons m.nodes _ _

theorem derivation_keeps_parent_witness :
    ∃ m1 c1 m2 c2 l2,
      store.Derivation.run (Z := zap.lib)
          ⟨[⟨store.Ctx.valueCtx (store.Ctx.emptyCtx false) (Key.user 1) (store.Val.user 7), 1⟩],
            [⟨none, false⟩, ⟨some ⟨[ZapLogger.Info], [("a", "1")]⟩, false⟩], 0⟩
          0 (store.Derivation.With [("x", "1")]) = some (m1, c1) ∧
      m1.nodes[0]?
        = some ⟨store.Ctx.valueCtx (store.Ctx.emptyCtx false) (Key.user 1) (store.Val.user 7), 1⟩ ∧
      m1.loggers[1]? = some ⟨some ⟨[ZapLogger.Info], [("a", "1")]⟩, false⟩ ∧
      m1.Value (store.Ctx.ptr 0) (Key.user 1) = some (store.Val.user 7) ∧
      store.loggerCtx.With m1 0 [("y", "2")] = some (m2, c2) ∧
      m2.nodes[c2]? = some ⟨store.Ctx.ptr 0, l2⟩ ∧
      m2.loggers[l2]?
        = some ⟨some ⟨[ZapLogger.Info], [("a", "1"), ("y", "2")]⟩, false⟩ := by
  obtain ⟨m1, c1, h1, _, _, _, _, hb, hL, ⟨v, hv, hv1⟩, _, m2, c2, l2, h2, h3, h4, _⟩ :=
    derivation_keeps_parent (Z := zap.lib)
      ⟨[⟨store.Ctx.valueCtx (store.Ctx.emptyCtx false) (Key.user 1) (store.Val.user 7), 1⟩],
        [⟨none, false⟩, ⟨some ⟨[ZapLogger.Info], [("a", "1")]⟩, false⟩], 0⟩
      0 ⟨store.Ctx.valueCtx (store.Ctx.emptyCtx false) (Key.user 1) (store.Val.user 7), 1⟩
      ⟨some ⟨[ZapLogger.Info], [("a", "1")]⟩, false⟩
      (store.Derivation.With [("x", "1")]) [("y", "2")] (Key.user 1)
      (fun a cell h => by
        cases a with
        | zero =>
          simp only [List.getElem?_cons_zero, Option.some.injEq] at h
          subst h
          simp [store.Ctx.within, store.Val.within]
        | succ a => simp at h)
      rfl rfl
  have hv7 : v = store.Val.user 7 := Option.some.inj (hv.symm.trans rfl)
  exact ⟨m1, c1, m2, c2, l2, h1, hb, hL, hv7 ▸ hv1, h2, h3, h4⟩

/-- C17. Let the library's no-op logger be non-nil and let `With` and
`WithOptions` return a non-nil logger for a non-nil receiver.  Then for every
context built from a root by the operations of the package, with only non-nil
loggers given to `WithLogger`, the logger stored at every bound node of its
chain is non-nil; in particular the logger a logging call on it is forwarded to
is non-nil. -/
theorem loggers_present (c : Ctx Z) (hNop : Z.IsNil Z.NewNop = false)
    (hWith : ∀ l fs, Z.IsNil l = false → Z.IsNil (Z.With l fs) = false)
    (hOpts : ∀ l os, Z.IsNil l = false → Z.IsNil (Z.WithOptions l os) = false)
    (hc : Built c) :
    (∀ l ∈ c.loggers, Z.IsNil l = false) ∧
    (∀ lc, c.asLoggerCtx = some lc → Z.IsNil lc.Logger = false) ∧
    (∀ lc, (c.Value Key.loggerKey).asLoggerCtx = some lc → Z.IsNil lc.Logger = false) := by
  have hp := Present.of_Built hNop hWith hOpts hc
  refine ⟨hp.loggers, ?_, fun lc hl => hp.lookup hl⟩
  intro lc hl
  apply hp.loggers
  cases c with
  | loggerCtx p l =>
    simp only [Ctx.asLoggerCtx, Option.some.injEq] at hl
    subst hl
    simp [Ctx.loggers]
  | emptyCtx _ => simp [Ctx.asLoggerCtx] at hl
  | cancelCtx _ _ => simp [Ctx.asLoggerCtx] at hl
  | timerCtx _ _ _ => simp [Ctx.asLoggerCtx] at hl
  | valueCtx _ _ _ => simp [Ctx.asLoggerCtx] at hl
  | foreign _ _ _ => simp [Ctx.asLoggerCtx] at hl

theorem loggers_present_witness :
    (WithCancel 4 (WithFields (WithLogger (Ctx.emptyCtx false : Ctx Z1) (some [1]))
        [2])).1.loggers = [some [1, 2], some [1, 2], some [1]] ∧
    Z1.IsNil (some [1, 2]) = false :=
  ⟨rfl,
   (loggers_present (Z := Z1)
      (WithCancel 4 (WithFields (WithLogger (Ctx.emptyCtx false) (some [1])) [2])).1
      rfl
      (fun l fs h => by cases l <;> simp_all)
      (fun l os h => h)
      (Built.WithCancel 4 (Built.WithFields [2]
        (Built.WithLogger (some [1]) rfl (Built.root false))))).1
     (some [1, 2]) (by simp [WithCancel, context.WithCancel, Logger, WithFields, WithLogger,
        Ctx.isLoggerContext, Ctx.Value, Val.asLoggerCtx, Ctx.loggers])⟩

end zapctx
